import Mathlib

/-!
# Verification of qlik-oss/mongocursorpagination

A shallow embedding, in Lean 4, of the cursor-pagination library:

* the cursor token codec (`encodeCursor`/`decodeCursor` in `mongo/find.go`,
  i.e. BSON document marshalling composed with raw-URL base64),
* the range-predicate builder (`GenerateCursorQuery` in `bson/bson.go`),
* the pagination driver (`Find`/`BuildQueries`/`ensureMandatoryParams`/
  `generateComparisonOps`/`parseCursor`/`generateCursor` in `mongo/find.go`),

together with theorems settling the specification's claims about them.

Modelling conventions:
* Go strings and `[]byte` values are byte lists (`List Nat`, each entry < 256);
  the empty Go string `""` is `[]`.
* BSON values are restricted to the scalar types cursors carry
  (string, int32, int64, UTC datetime, bool, null, ObjectId).
* Machine integers (the int32/int64 payloads) are `Int` with explicit
  two's-complement conversion through `% 2^w`.
* Fallible Go functions return `Except`/`Option`.
-/

namespace MCP

/-- A byte string (contents of a Go `string` or `[]byte`); bytes are `Nat < 256`. -/
abbrev ByteStr := List Nat

/-- A BSON field name, as its byte string. -/
abbrev Name := ByteStr

/-- A cursor token (the URL-safe string handed to callers), as its byte string. -/
abbrev Token := ByteStr

/-- The bytes of the literal field name `"_id"` (0x5f 0x69 0x64). -/
def idName : Name := [95, 105, 100]

/-! ## Little-endian byte encoding of numbers -/

/-- `k` little-endian bytes of `n` (as written by the BSON encoder for
int32/int64 length and value fields). -/
def le : Nat → Nat → List Nat
  | 0, _ => []
  | k + 1, n => n % 256 :: le k (n / 256)

/-- Read a little-endian byte list back into a `Nat`. -/
def readLE : List Nat → Nat
  | [] => 0
  | b :: bs => b + 256 * readLE bs

/-- Two's-complement representation of an `Int` in `w` bits, as a `Nat`. -/
def toUnsigned (w : Nat) (n : Int) : Nat := (n % (2 ^ w : Nat)).toNat

/-- Decode a `w`-bit two's-complement `Nat` back into an `Int`. -/
def fromUnsigned (w : Nat) (m : Nat) : Int :=
  if m < 2 ^ (w - 1) then (m : Int) else (m : Int) - (2 ^ w : Nat)

theorem le_length (k n : Nat) : (le k n).length = k := by
  induction k generalizing n with
  | zero => rfl
  | succ k ih => simp [le, ih]

theorem le_all_lt (k n : Nat) : ∀ b ∈ le k n, b < 256 := by
  induction k generalizing n with
  | zero => simp [le]
  | succ k ih =>
    intro b hb
    simp only [le, List.mem_cons] at hb
    rcases hb with h | h
    · omega
    · exact ih _ _ h

theorem readLE_le (k n : Nat) : readLE (le k n) = n % 256 ^ k := by
  induction k generalizing n with
  | zero => simp [le, readLE, Nat.mod_one]
  | succ k ih =>
    simp only [le, readLE, ih]
    rw [pow_succ, mul_comm (256 ^ k) 256, Nat.mod_mul]

theorem readLE_le_of_lt {k n : Nat} (h : n < 256 ^ k) : readLE (le k n) = n := by
  rw [readLE_le, Nat.mod_eq_of_lt h]

theorem toUnsigned_lt (w : Nat) (n : Int) : toUnsigned w n < 2 ^ w := by
  have h2 : (0 : Int) < (2 ^ w : Nat) := by positivity
  have := Int.emod_lt_of_pos n h2
  have := Int.emod_nonneg n (by omega : ((2 ^ w : Nat) : Int) ≠ 0)
  simp only [toUnsigned]
  omega

theorem fromUnsigned_toUnsigned32 {n : Int}
    (hlo : -(2 ^ 31) ≤ n) (hhi : n < 2 ^ 31) :
    fromUnsigned 32 (toUnsigned 32 n) = n := by
  simp only [toUnsigned, fromUnsigned]
  norm_num
  omega

theorem fromUnsigned_toUnsigned64 {n : Int}
    (hlo : -(2 ^ 63) ≤ n) (hhi : n < 2 ^ 63) :
    fromUnsigned 64 (toUnsigned 64 n) = n := by
  simp only [toUnsigned, fromUnsigned]
  norm_num
  omega

/-! ## Raw-URL base64 (Go `encoding/base64`, `RawURLEncoding`)

`base64.RawURLEncoding.EncodeToString` / `DecodeString`: the URL-safe
alphabet (`A-Z a-z 0-9 - _`), no padding. Encoding walks the input in
3-byte groups producing 4 sextets, with 2- or 3-character final quanta
for 1 or 2 leftover bytes; decoding is the inverse and rejects a final
quantum of a single character (`CorruptInputError`). -/

/-- base64url alphabet: sextet value (< 64) to ASCII byte. -/
def b64Char (n : Nat) : Nat :=
  if n < 26 then 65 + n
  else if n < 52 then 97 + (n - 26)
  else if n < 62 then 48 + (n - 52)
  else if n = 62 then 45
  else 95

/-- Inverse alphabet lookup; `none` on a byte outside the alphabet. -/
def b64CharDecode (c : Nat) : Option Nat :=
  if 65 ≤ c ∧ c ≤ 90 then some (c - 65)
  else if 97 ≤ c ∧ c ≤ 122 then some (26 + (c - 97))
  else if 48 ≤ c ∧ c ≤ 57 then some (52 + (c - 48))
  else if c = 45 then some 62
  else if c = 95 then some 63
  else none

theorem b64CharDecode_b64Char_all : ∀ n < 64, b64CharDecode (b64Char n) = some n := by
  decide

theorem b64CharDecode_b64Char {n : Nat} (h : n < 64) :
    b64CharDecode (b64Char n) = some n :=
  b64CharDecode_b64Char_all n h

/-- `base64.RawURLEncoding.EncodeToString`. -/
def b64Encode : List Nat → List Nat
  | b0 :: b1 :: b2 :: rest =>
      b64Char (b0 / 4) :: b64Char (b0 % 4 * 16 + b1 / 16) ::
      b64Char (b1 % 16 * 4 + b2 / 64) :: b64Char (b2 % 64) :: b64Encode rest
  | [b0, b1] => [b64Char (b0 / 4), b64Char (b0 % 4 * 16 + b1 / 16), b64Char (b1 % 16 * 4)]
  | [b0] => [b64Char (b0 / 4), b64Char (b0 % 4 * 16)]
  | [] => []

/-- `base64.RawURLEncoding.DecodeString`; `none` models `CorruptInputError`. -/
def b64Decode : List Nat → Option (List Nat)
  | c0 :: c1 :: c2 :: c3 :: rest =>
    match b64CharDecode c0, b64CharDecode c1, b64CharDecode c2, b64CharDecode c3,
        b64Decode rest with
    | some s0, some s1, some s2, some s3, some tail =>
        some ((s0 * 4 + s1 / 16) :: (s1 % 16 * 16 + s2 / 4) :: (s2 % 4 * 64 + s3) :: tail)
    | _, _, _, _, _ => none
  | [c0, c1, c2] =>
    match b64CharDecode c0, b64CharDecode c1, b64CharDecode c2 with
    | some s0, some s1, some s2 => some [s0 * 4 + s1 / 16, s1 % 16 * 16 + s2 / 4]
    | _, _, _ => none
  | [c0, c1] =>
    match b64CharDecode c0, b64CharDecode c1 with
    | some s0, some s1 => some [s0 * 4 + s1 / 16]
    | _, _ => none
  | [_] => none
  | [] => some []

theorem b64Decode_b64Encode {bs : List Nat} (h : ∀ b ∈ bs, b < 256) :
    b64Decode (b64Encode bs) = some bs := by
  induction bs using b64Encode.induct with
  | case1 b0 b1 b2 rest ih =>
    have hb0 : b0 < 256 := h b0 (by simp)
    have hb1 : b1 < 256 := h b1 (by simp)
    have hb2 : b2 < 256 := h b2 (by simp)
    have hrest : ∀ b ∈ rest, b < 256 := fun b hb => h b (by simp [hb])
    simp only [b64Encode, b64Decode,
      b64CharDecode_b64Char (show b0 / 4 < 64 by omega),
      b64CharDecode_b64Char (show b0 % 4 * 16 + b1 / 16 < 64 by omega),
      b64CharDecode_b64Char (show b1 % 16 * 4 + b2 / 64 < 64 by omega),
      b64CharDecode_b64Char (show b2 % 64 < 64 by omega),
      ih hrest, Option.some.injEq, List.cons.injEq, and_true]
    omega
  | case2 b0 b1 =>
    have hb0 : b0 < 256 := h b0 (by simp)
    have hb1 : b1 < 256 := h b1 (by simp)
    simp only [b64Encode, b64Decode,
      b64CharDecode_b64Char (show b0 / 4 < 64 by omega),
      b64CharDecode_b64Char (show b0 % 4 * 16 + b1 / 16 < 64 by omega),
      b64CharDecode_b64Char (show b1 % 16 * 4 < 64 by omega),
      Option.some.injEq, List.cons.injEq, and_true]
    omega
  | case3 b0 =>
    have hb0 : b0 < 256 := h b0 (by simp)
    simp only [b64Encode, b64Decode,
      b64CharDecode_b64Char (show b0 / 4 < 64 by omega),
      b64CharDecode_b64Char (show b0 % 4 * 16 < 64 by omega),
      Option.some.injEq, List.cons.injEq, and_true]
    omega
  | case4 => simp [b64Encode, b64Decode]

theorem b64Encode_ne_nil {bs : List Nat} (h : bs ≠ []) : b64Encode bs ≠ [] := by
  match bs with
  | b0 :: b1 :: b2 :: rest => simp [b64Encode]
  | [b0, b1] => simp [b64Encode]
  | [b0] => simp [b64Encode]
  | [] => exact absurd rfl h

/-! ## BSON scalar values and the document codec -/

/-- The BSON scalar values a cursor can carry (`go.mongodb.org/mongo-driver/bson`
types as decoded into `interface{}`): UTF-8 string, ObjectId, boolean, UTC
datetime, null, int32, int64. -/
inductive BVal where
  | str (s : ByteStr)
  | oid (bytes : ByteStr)
  | boolean (b : Bool)
  | dt (millis : Int)
  | null
  | i32 (n : Int)
  | i64 (n : Int)
deriving DecidableEq, Repr

/-- An ordered BSON document (`bson.D`): the (fieldName, value) pairs. -/
abbrev BsonDoc := List (Name × BVal)

/-- The BSON element type tag byte for each value. -/
def typeByte : BVal → Nat
  | .str _ => 2
  | .oid _ => 7
  | .boolean _ => 8
  | .dt _ => 9
  | .null => 10
  | .i32 _ => 16
  | .i64 _ => 18

/-- The encoded payload of one value (without tag and name). -/
def valueBytes : BVal → List Nat
  | .str s => le 4 (s.length + 1) ++ s ++ [0]
  | .oid bs => bs
  | .boolean b => [if b then 1 else 0]
  | .dt n => le 8 (toUnsigned 64 n)
  | .null => []
  | .i32 n => le 4 (toUnsigned 32 n)
  | .i64 n => le 8 (toUnsigned 64 n)

/-- One encoded document element: tag byte, cstring name, payload. -/
def elementBytes (e : Name × BVal) : List Nat :=
  typeByte e.2 :: (e.1 ++ 0 :: valueBytes e.2)

/-- The concatenated elements of a document. -/
def docBody (d : BsonDoc) : List Nat := (d.map elementBytes).flatten

/-- `bson.Marshal` of a `bson.D`: int32 total length, elements, terminator. -/
def bsonMarshal (d : BsonDoc) : List Nat :=
  le 4 (4 + (docBody d).length + 1) ++ docBody d ++ [0]

/-- Split a BSON cstring: the bytes before the first NUL, and the rest. -/
def splitCString : List Nat → Option (Name × List Nat)
  | [] => none
  | 0 :: rest => some ([], rest)
  | b :: rest =>
    match splitCString rest with
    | some (name, rest1) => some (b :: name, rest1)
    | none => none

/-- Parse one value payload given its type tag; returns the value and
the remaining bytes. Unknown tags and malformed payloads fail. -/
def parseValue : Nat → List Nat → Option (BVal × List Nat)
  | 2, bs =>
    if bs.length < 4 then none
    else
      let len := readLE (bs.take 4)
      let rest := bs.drop 4
      if len = 0 ∨ rest.length < len then none
      else
        match (rest.drop (len - 1)).head? with
        | some 0 => some (.str (rest.take (len - 1)), rest.drop len)
        | _ => none
  | 7, bs => if bs.length < 12 then none else some (.oid (bs.take 12), bs.drop 12)
  | 8, bs =>
    match bs with
    | 0 :: rest => some (.boolean false, rest)
    | 1 :: rest => some (.boolean true, rest)
    | _ => none
  | 9, bs =>
    if bs.length < 8 then none
    else some (.dt (fromUnsigned 64 (readLE (bs.take 8))), bs.drop 8)
  | 10, bs => some (.null, bs)
  | 16, bs =>
    if bs.length < 4 then none
    else some (.i32 (fromUnsigned 32 (readLE (bs.take 4))), bs.drop 4)
  | 18, bs =>
    if bs.length < 8 then none
    else some (.i64 (fromUnsigned 64 (readLE (bs.take 8))), bs.drop 8)
  | _, _ => none

/-- Parse document elements until the terminating NUL byte, which must be
the final byte. `fuel` bounds the recursion (callers pass the buffer length). -/
def parseElements : Nat → List Nat → Option BsonDoc
  | 0, _ => none
  | fuel + 1, bs =>
    match bs with
    | [] => none
    | t :: rest =>
      if t = 0 then (if rest = [] then some [] else none)
      else
        match splitCString rest with
        | none => none
        | some (name, rest1) =>
          match parseValue t rest1 with
          | none => none
          | some (v, rest2) =>
            match parseElements fuel rest2 with
            | none => none
            | some tail => some ((name, v) :: tail)

/-- `bson.Unmarshal` into a `bson.D`: check the int32 length prefix
against the buffer, then parse elements up to the final terminator. -/
def bsonUnmarshal (bs : List Nat) : Option BsonDoc :=
  if bs.length < 5 then none
  else if readLE (bs.take 4) ≠ bs.length then none
  else parseElements bs.length (bs.drop 4)

/-! ### Well-formedness: values representable as a BSON document -/

/-- A valid BSON field name: real bytes, no embedded NUL (cstring). -/
def nameWF (n : Name) : Prop := (∀ b ∈ n, b < 256) ∧ 0 ∉ n

/-- Value well-formedness: byte lists hold bytes, machine ints in range,
ObjectIds are 12 bytes, string lengths fit an int32. -/
def valWF : BVal → Prop
  | .str s => (∀ b ∈ s, b < 256) ∧ s.length + 1 < 2 ^ 32
  | .oid bs => bs.length = 12 ∧ ∀ b ∈ bs, b < 256
  | .boolean _ => True
  | .dt n => -(2 ^ 63) ≤ n ∧ n < 2 ^ 63
  | .null => True
  | .i32 n => -(2 ^ 31) ≤ n ∧ n < 2 ^ 31
  | .i64 n => -(2 ^ 63) ≤ n ∧ n < 2 ^ 63

/-- A document representable as a BSON document. -/
def docWF (d : BsonDoc) : Prop := ∀ e ∈ d, nameWF e.1 ∧ valWF e.2

instance : DecidablePred valWF := by
  intro v
  cases v <;> simp only [valWF] <;> infer_instance

instance : DecidablePred docWF := by
  intro d
  simp only [docWF, nameWF]
  infer_instance

/-! ### Roundtrip lemmas -/

theorem splitCString_append {name : Name} (rest : List Nat) (h : 0 ∉ name) :
    splitCString (name ++ 0 :: rest) = some (name, rest) := by
  induction name with
  | nil => rfl
  | cons b bs ih =>
    have hb : b ≠ 0 := fun hb0 => h (by simp [hb0])
    have hbs : 0 ∉ bs := fun hm => h (by simp [hm])
    cases b with
    | zero => exact absurd rfl hb
    | succ b' => simp [splitCString, ih hbs]

theorem take_append_of_length {xs ys : List Nat} {k : Nat} (h : xs.length = k) :
    (xs ++ ys).take k = xs := by
  subst h
  simp

theorem drop_append_of_length {xs ys : List Nat} {k : Nat} (h : xs.length = k) :
    (xs ++ ys).drop k = ys := by
  subst h
  simp

theorem parseValue_append {v : BVal} (rest : List Nat) (h : valWF v) :
    parseValue (typeByte v) (valueBytes v ++ rest) = some (v, rest) := by
  cases v with
  | str s =>
    obtain ⟨hbytes, hlen⟩ := h
    have h4 : (le 4 (s.length + 1)).length = 4 := le_length 4 _
    simp only [typeByte, valueBytes, parseValue]
    rw [List.append_assoc, List.append_assoc]
    rw [take_append_of_length h4, drop_append_of_length h4,
      readLE_le_of_lt (show s.length + 1 < 256 ^ 4 by omega)]
    rw [if_neg (by simp [le_length]), if_neg (by simp)]
    have hdrop : (s ++ ([0] ++ rest)).drop (s.length + 1 - 1) = 0 :: rest := by simp
    have htake : (s ++ ([0] ++ rest)).take (s.length + 1 - 1) = s := by simp
    have hdropn : (s ++ ([0] ++ rest)).drop (s.length + 1) = rest := by
      rw [show s ++ ([0] ++ rest) = (s ++ [0]) ++ rest by simp,
        show s.length + 1 = (s ++ [0]).length by simp]
      exact drop_append_of_length rfl
    rw [hdrop]
    simp only [List.head?_cons]
    rw [htake, hdropn]
  | oid bs =>
    obtain ⟨hl, _⟩ := h
    simp only [typeByte, valueBytes, parseValue]
    rw [if_neg (by simp [hl]), take_append_of_length hl, drop_append_of_length hl]
  | boolean b =>
    cases b <;> simp [typeByte, valueBytes, parseValue]
  | dt n =>
    obtain ⟨hlo, hhi⟩ := h
    have h8 : (le 8 (toUnsigned 64 n)).length = 8 := le_length 8 _
    simp only [typeByte, valueBytes, parseValue]
    rw [if_neg (by simp [h8]), take_append_of_length h8, drop_append_of_length h8,
      readLE_le_of_lt (by have := toUnsigned_lt 64 n; omega),
      fromUnsigned_toUnsigned64 hlo hhi]
  | null => simp [typeByte, valueBytes, parseValue]
  | i32 n =>
    obtain ⟨hlo, hhi⟩ := h
    have h4 : (le 4 (toUnsigned 32 n)).length = 4 := le_length 4 _
    simp only [typeByte, valueBytes, parseValue]
    rw [if_neg (by simp [h4]), take_append_of_length h4, drop_append_of_length h4,
      readLE_le_of_lt (by have := toUnsigned_lt 32 n; omega),
      fromUnsigned_toUnsigned32 hlo hhi]
  | i64 n =>
    obtain ⟨hlo, hhi⟩ := h
    have h8 : (le 8 (toUnsigned 64 n)).length = 8 := le_length 8 _
    simp only [typeByte, valueBytes, parseValue]
    rw [if_neg (by simp [h8]), take_append_of_length h8, drop_append_of_length h8,
      readLE_le_of_lt (by have := toUnsigned_lt 64 n; omega),
      fromUnsigned_toUnsigned64 hlo hhi]

theorem typeByte_ne_zero (v : BVal) : typeByte v ≠ 0 := by
  cases v <;> simp [typeByte]

theorem docBody_cons (e : Name × BVal) (d : BsonDoc) :
    docBody (e :: d) = elementBytes e ++ docBody d := by
  simp [docBody]

theorem parseElements_docBody {d : BsonDoc} (h : docWF d) :
    ∀ {fuel : Nat}, (docBody d).length < fuel →
      parseElements fuel (docBody d ++ [0]) = some d := by
  induction d with
  | nil =>
    intro fuel hfuel
    match fuel, hfuel with
    | fuel + 1, _ => simp [docBody, parseElements]
  | cons e d ih =>
    intro fuel hfuel
    obtain ⟨hname, hval⟩ := h e (by simp)
    have hd : docWF d := fun x hx => h x (List.mem_cons_of_mem e hx)
    rw [docBody_cons] at hfuel ⊢
    match fuel, hfuel with
    | fuel + 1, hfuel =>
      have hshape : elementBytes e ++ docBody d ++ [0] =
          typeByte e.2 :: (e.1 ++ 0 :: (valueBytes e.2 ++ (docBody d ++ [0]))) := by
        simp [elementBytes]
      rw [hshape]
      simp only [parseElements]
      rw [if_neg (typeByte_ne_zero e.2), splitCString_append _ hname.2]
      dsimp only
      rw [parseValue_append _ hval]
      have hlt : (docBody d).length < fuel := by
        simp only [List.length_append, elementBytes, List.length_cons] at hfuel
        omega
      dsimp only
      rw [ih hd hlt]

theorem docBody_all_lt {d : BsonDoc} (h : docWF d) : ∀ b ∈ docBody d, b < 256 := by
  induction d with
  | nil => simp [docBody]
  | cons e d ih =>
    obtain ⟨hname, hval⟩ := h e (by simp)
    have hd : docWF d := fun x hx => h x (List.mem_cons_of_mem e hx)
    intro b hb
    rw [docBody_cons] at hb
    rcases List.mem_append.mp hb with hb | hb
    · simp only [elementBytes, List.mem_cons, List.mem_append] at hb
      rcases hb with hb | hb | hb
      · subst hb
        cases e.2 <;> simp only [typeByte] <;> omega
      · exact hname.1 b hb
      · rcases hb with hb | hb
        · omega
        · cases hv : e.2 with
          | str s =>
            rw [hv] at hb hval
            simp only [valueBytes, List.append_assoc, List.mem_append,
              List.mem_singleton] at hb
            rcases hb with hb | hb | hb
            · exact le_all_lt 4 _ b hb
            · exact hval.1 b hb
            · omega
          | oid bs =>
            rw [hv] at hb hval
            exact hval.2 b hb
          | boolean bb =>
            rw [hv] at hb
            rcases bb <;> simp [valueBytes] at hb <;> omega
          | dt n =>
            rw [hv] at hb
            exact le_all_lt 8 _ b hb
          | null =>
            rw [hv] at hb
            simp [valueBytes] at hb
          | i32 n =>
            rw [hv] at hb
            exact le_all_lt 4 _ b hb
          | i64 n =>
            rw [hv] at hb
            exact le_all_lt 8 _ b hb
    · exact ih hd b hb

theorem bsonMarshal_all_lt {d : BsonDoc} (h : docWF d) : ∀ b ∈ bsonMarshal d, b < 256 := by
  intro b hb
  simp only [bsonMarshal, List.append_assoc, List.mem_append, List.mem_singleton] at hb
  rcases hb with hb | hb | hb
  · exact le_all_lt 4 _ b hb
  · exact docBody_all_lt h b hb
  · omega

theorem bsonMarshal_length (d : BsonDoc) :
    (bsonMarshal d).length = 4 + (docBody d).length + 1 := by
  simp [bsonMarshal, le_length]
  omega

theorem bsonUnmarshal_bsonMarshal {d : BsonDoc} (h : docWF d)
    (hlen : 4 + (docBody d).length + 1 < 2 ^ 32) :
    bsonUnmarshal (bsonMarshal d) = some d := by
  have hml := bsonMarshal_length d
  have h4 : (le 4 (4 + (docBody d).length + 1)).length = 4 := le_length 4 _
  have htake : (bsonMarshal d).take 4 = le 4 (4 + (docBody d).length + 1) := by
    simp only [bsonMarshal, List.append_assoc]
    exact take_append_of_length h4
  have hdrop : (bsonMarshal d).drop 4 = docBody d ++ [0] := by
    simp only [bsonMarshal, List.append_assoc]
    exact drop_append_of_length h4
  simp only [bsonUnmarshal]
  rw [if_neg (by omega), htake, readLE_le_of_lt (show 4 + (docBody d).length + 1 < 256 ^ 4 by omega),
    if_neg (by omega), hdrop, hml]
  exact parseElements_docBody h (by omega)

/-! ## The cursor token codec (`encodeCursor` / `decodeCursor`, mongo/find.go) -/

/-- The decoded content of a cursor token: an ordered (fieldName, value)
sequence (a `bson.D`). -/
abbrev CursorDoc := BsonDoc

/-- The two failure modes of `decodeCursor`: `base64.CorruptInputError`
from `DecodeString`, or a `bson.Unmarshal` failure. -/
inductive DecodeErr where
  | corruptBase64
  | corruptBson
deriving DecidableEq, Repr

/-- `encodeCursor` (mongo/find.go): `bson.Marshal` the pairs, then
base64 raw-URL encode. (The Go function also returns `bson.Marshal`'s
error, which cannot fire for the scalar values modelled here.) -/
def encodeCursor (cursorData : CursorDoc) : Token :=
  b64Encode (bsonMarshal cursorData)

/-- `decodeCursor` (mongo/find.go): base64 raw-URL decode, then
`bson.Unmarshal` into a `bson.D`. -/
def decodeCursor (cursor : Token) : Except DecodeErr CursorDoc :=
  match b64Decode cursor with
  | none => .error .corruptBase64
  | some data =>
    match bsonUnmarshal data with
    | none => .error .corruptBson
    | some doc => .ok doc

theorem encodeCursor_ne_nil (d : CursorDoc) : encodeCursor d ≠ [] := by
  have h := bsonMarshal_length d
  apply b64Encode_ne_nil
  intro hnil
  rw [hnil] at h
  simp at h

/-- **C2** (confirmed). For every ordered sequence of (fieldName, value)
pairs representable as a BSON document (valid cstring names, in-range
scalar values, total size within int32), decoding the encoded token
succeeds and returns exactly the same sequence, preserving field order
and values: `decodeCursor (encodeCursor P) = P`. -/
theorem decodeCursor_encodeCursor (d : CursorDoc) (hwf : docWF d)
    (hlen : 4 + (docBody d).length + 1 < 2 ^ 32) :
    decodeCursor (encodeCursor d) = .ok d := by
  simp only [decodeCursor, encodeCursor]
  rw [b64Decode_b64Encode (bsonMarshal_all_lt hwf)]
  dsimp only
  rw [bsonUnmarshal_bsonMarshal hwf hlen]

theorem C2_decode_encode_roundtrip (d : CursorDoc) (hwf : docWF d)
    (hlen : 4 + (docBody d).length + 1 < 2 ^ 32) :
    decodeCursor (encodeCursor d) = .ok d :=
  decodeCursor_encodeCursor d hwf hlen

/-- A concrete document exercising the codec: `{name: "item 1", _id: ObjectId}`. -/
def exampleDoc : CursorDoc :=
  [([110, 97, 109, 101], .str [105, 116, 101, 109, 32, 49]),
   (idName, .oid [1, 2, 3, 4, 5, 6, 7, 8, 9, 10, 11, 12])]

/-- Witness for C2 at a concrete document. -/
theorem C2_witness :
    docWF exampleDoc ∧ 4 + (docBody exampleDoc).length + 1 < 2 ^ 32 ∧
      decodeCursor (encodeCursor exampleDoc) = .ok exampleDoc :=
  ⟨by decide, by decide,
    C2_decode_encode_roundtrip exampleDoc (by decide) (by decide)⟩

/-! ## The range-predicate builder (`GenerateCursorQuery`, bson/bson.go)

The Go function returns a `map[string]interface{}` query document. The
function only ever produces three shapes, embedded here as `CursorQuery`:

* `len(paginatedFields) <= 1`: `{"_id": {op: v0}}` (note the hard-coded
  `"_id"`, not `paginatedFields[0]`);
* `len(paginatedFields) == 2`:
  `{$or: [{f0: {op0: v0}}, {$and: [{f0: {op0+"e": v0}}, {"_id": {op0: v1}}]}]}`;
* `len(paginatedFields) > 2`: `{$and: [clause_0, ..., clause_{K-2}]}` where
  `clause_i = {$or: [{f_i: {op_i: v_i}}, {$and: [{f_i: {op_i+"e": v_i}},
  {"_id": {op_i: v_last}}]}]}`.

Comparison-operator strings stay Lean `String`s (they never flow into the
byte-level codec). The value type is a parameter, as the Go code treats
cursor values as opaque `interface{}`. -/

/-- One `{field: {op: value}}` condition document. -/
structure FieldCond (α : Type) where
  field : Name
  op : String
  value : α
deriving DecidableEq, Repr

/-- One `{$or: [c1, {$and: [c2, c3]}]}` clause as built by the Go code. -/
structure OrClause (α : Type) where
  c1 : FieldCond α
  c2 : FieldCond α
  c3 : FieldCond α
deriving DecidableEq, Repr

/-- The query document returned by `GenerateCursorQuery`. -/
inductive CursorQuery (α : Type) where
  | single (c : FieldCond α)
  | pair (cl : OrClause α)
  | multi (clauses : List (OrClause α))
deriving DecidableEq, Repr

/-- `fmt.Sprintf("%se", comparisonOp)`: `$lt ↦ $lte`, `$gt ↦ $gte`. -/
def rangeOp (op : String) : String := op ++ "e"

/-- `GenerateCursorQuery` (bson/bson.go). Out-of-range slice indexing
(which panics in Go, and is unreachable after the length validations
for non-empty input) is modelled with `getD` defaults. -/
def GenerateCursorQuery {α : Type} [Inhabited α] (paginatedFields : List Name)
    (comparisonOps : List String) (cursorFieldValues : List α) :
    Except String (CursorQuery α) :=
  if paginatedFields.length ≠ cursorFieldValues.length then
    .error "wrong number of cursor field values specified"
  else if comparisonOps.length ≠ cursorFieldValues.length then
    .error "wrong number of comparison operators specified"
  else if ¬ (∀ op ∈ comparisonOps, op = "$lt" ∨ op = "$gt") then
    .error "invalid comparison operator specified: only $lt and $gt are allowed"
  else if paginatedFields.length > 1 then
    if paginatedFields.length = 2 then
      .ok (.pair ⟨⟨paginatedFields.getD 0 [], comparisonOps.getD 0 "", cursorFieldValues.getD 0 default⟩,
        ⟨paginatedFields.getD 0 [], rangeOp (comparisonOps.getD 0 ""), cursorFieldValues.getD 0 default⟩,
        ⟨idName, comparisonOps.getD 0 "", cursorFieldValues.getD 1 default⟩⟩)
    else
      .ok (.multi ((List.range (paginatedFields.length - 1)).map fun i =>
        ⟨⟨paginatedFields.getD i [], comparisonOps.getD i "", cursorFieldValues.getD i default⟩,
         ⟨paginatedFields.getD i [], rangeOp (comparisonOps.getD i ""), cursorFieldValues.getD i default⟩,
         ⟨idName, comparisonOps.getD i "", cursorFieldValues.getD (cursorFieldValues.length - 1) default⟩⟩))
  else
    .ok (.single ⟨idName, comparisonOps.getD 0 "", cursorFieldValues.getD 0 default⟩)

/-! ### Semantics of the query over a record, for integer-valued fields -/

/-- MongoDB comparison-operator semantics on a linearly ordered value. -/
def evalOp : String → Int → Int → Bool
  | "$lt", x, v => decide (x < v)
  | "$gt", x, v => decide (x > v)
  | "$lte", x, v => decide (x ≤ v)
  | "$gte", x, v => decide (x ≥ v)
  | "$eq", x, v => decide (x = v)
  | _, _, _ => false

/-- Evaluate one field condition against a record (total field valuation). -/
def evalCond (r : Name → Int) (c : FieldCond Int) : Bool :=
  evalOp c.op (r c.field) c.value

/-- Evaluate one `$or`-clause: `c1 OR (c2 AND c3)`. -/
def evalOrClause (r : Name → Int) (cl : OrClause Int) : Bool :=
  evalCond r cl.c1 || (evalCond r cl.c2 && evalCond r cl.c3)

/-- Evaluate the generated query document against a record. -/
def evalQuery (r : Name → Int) : CursorQuery Int → Bool
  | .single c => evalCond r c
  | .pair cl => evalOrClause r cl
  | .multi clauses => clauses.all (evalOrClause r)

/-- The lexicographic comparison the specification describes:
`(f1 CMP1 v1) OR (f1 == v1 AND f2 CMP2 v2) OR ... OR
(f1==v1 AND ... AND fK-1==vK-1 AND fK CMPK vK)`, with exact-match
equality at every position except the last. (Stated from the spec's
words, to compare against the code's query.) -/
def lexPred (r : Name → Int) : List (Name × String × Int) → Bool
  | [] => false
  | (f, op, v) :: rest => evalOp op (r f) v || (decide (r f = v) && lexPred r rest)

/-- A concrete record: `_id = 1`, every other field `0`. -/
def cexRec : Name → Int := fun f => if f = idName then 1 else 0

/-- **C1** (counterexample). With K = 2 fields `["a", "_id"]`, operators
`[">", "<"]` (mixed directions, as produced for sort orders `[1, -1]`),
and cursor values `[0, 0]`, the generated predicate holds on the record
`{a: 0, _id: 1}` while the lexicographic comparison does not: the builder
uses field 0's operator (and its inclusive variant) at every position,
so the claimed equivalence fails. -/
theorem C1_counterexample :
    GenerateCursorQuery [[97], idName] ["$gt", "$lt"] [(0 : Int), 0] =
      .ok (.pair ⟨⟨[97], "$gt", 0⟩, ⟨[97], "$gte", 0⟩, ⟨idName, "$gt", 0⟩⟩) ∧
    evalQuery cexRec (.pair ⟨⟨[97], "$gt", 0⟩, ⟨[97], "$gte", 0⟩, ⟨idName, "$gt", 0⟩⟩) = true ∧
    lexPred cexRec [([97], "$gt", 0), (idName, "$lt", 0)] = false := by
  refine ⟨rfl, rfl, rfl⟩

/-- **C1** (amended, proved). For exactly two paginated fields whose
second field is `_id` and whose two comparison operators are the same
`CMP ∈ {"$lt", "$gt"}` (the configuration the driver produces when both
sort orders point the same way), the generated predicate — which uses the
inclusive range operator at position 0 — is equivalent, over every
record, to the lexicographic comparison with exact-match equality:
`(f0 CMP v0) OR (f0 == v0 AND _id CMP v1)`. -/
theorem C1_amended (f0 : Name) (op : String) (v0 v1 : Int) (r : Name → Int)
    (hop : op = "$lt" ∨ op = "$gt") :
    GenerateCursorQuery [f0, idName] [op, op] [v0, v1] =
      .ok (.pair ⟨⟨f0, op, v0⟩, ⟨f0, rangeOp op, v0⟩, ⟨idName, op, v1⟩⟩) ∧
    evalQuery r (.pair ⟨⟨f0, op, v0⟩, ⟨f0, rangeOp op, v0⟩, ⟨idName, op, v1⟩⟩) =
      lexPred r [(f0, op, v0), (idName, op, v1)] := by
  rcases hop with h | h <;> subst h
  · refine ⟨rfl, ?_⟩
    simp only [evalQuery, evalOrClause, evalCond, lexPred,
      show rangeOp "$lt" = "$lte" from rfl, evalOp, Bool.and_false, Bool.or_false]
    rw [Bool.eq_iff_iff]
    simp only [Bool.or_eq_true, Bool.and_eq_true, decide_eq_true_eq]
    omega
  · refine ⟨rfl, ?_⟩
    simp only [evalQuery, evalOrClause, evalCond, lexPred,
      show rangeOp "$gt" = "$gte" from rfl, evalOp, Bool.and_false, Bool.or_false]
    rw [Bool.eq_iff_iff]
    simp only [Bool.or_eq_true, Bool.and_eq_true, decide_eq_true_eq]
    omega

/-- Witness for the amended C1 at a concrete instance. -/
theorem C1_amended_witness :
    GenerateCursorQuery [[97], idName] ["$gt", "$gt"] [(0 : Int), 5] =
      .ok (.pair ⟨⟨[97], "$gt", 0⟩, ⟨[97], rangeOp "$gt", 0⟩, ⟨idName, "$gt", 5⟩⟩) ∧
    evalQuery cexRec (.pair ⟨⟨[97], "$gt", 0⟩, ⟨[97], rangeOp "$gt", 0⟩, ⟨idName, "$gt", 5⟩⟩) =
      lexPred cexRec [([97], "$gt", 0), (idName, "$gt", 5)] :=
  C1_amended [97] "$gt" 0 5 cexRec (Or.inr rfl)

/-! ## The pagination driver (mongo/find.go)

The driver is embedded as a pure function of the `FindParams`, an
abstract collection (the two query functions the `Collection` interface
exposes), and the reflection-derived view of the caller's results slice.
Besides the Go return value it also yields the ordered list of queries
actually executed against the collection, so that claims about which
external calls happen (and with which arguments) can be stated. -/

/-- A record as decoded from the collection: an ordered BSON document. -/
abbrev Rec := BsonDoc

instance : Inhabited BVal := ⟨.null⟩

/-- `recordAsMap[field]` in `generateCursor`: the map view of a record
(`bson.Marshal` then `bson.Unmarshal` into `map[string]interface{}`);
a duplicated key keeps its last occurrence, an absent key is `none`. -/
def bvLookup (result : Rec) (f : Name) : Option BVal :=
  ((result.filter fun e => e.1 == f).getLast?).map (·.2)

/-- An element of the `[]bson.M` queries slice: the caller's base filter
(opaque to the driver, identified by a number) or the generated cursor
range query. -/
inductive MQuery where
  | base (filter : Nat)
  | cursor (q : CursorQuery BVal)
deriving DecidableEq, Repr

/-- The sort document (`bson.D` of (field, order) pairs). -/
abbrev SortDoc := List (Name × Int)

/-- One query executed against the collection: `CountDocuments`, or the
bounded fetch (`Find` with `options.SetLimit(limit)`, recorded here with
the limit that was set). -/
inductive CallEvent where
  | countDocuments (queries : List MQuery)
  | findDocs (queries : List MQuery) (sort : SortDoc) (limit : Int)
deriving DecidableEq, Repr

/-- The abstract mongo collection (the `Collection` interface): results
of `CountDocuments` and `Find`+`cursor.All`. Store errors are opaque
strings, propagated unchanged. -/
structure CollectionM where
  countDocuments : List MQuery → Except String Nat
  findDocs : List MQuery → SortDoc → Int → Except String (List Rec)

/-- `FindParams` (mongo/find.go). `Hint`, `Projection` and `Timeout` are
pass-through query options no claim observes and are omitted; `Collation`
is opaque (only its presence matters to the driver). -/
structure FindParams where
  collection : Option CollectionM
  query : Nat
  limit : Int
  sortAscending : Bool
  paginatedField : Name
  collation : Option Nat
  next : Token
  previous : Token
  countTotal : Bool
  paginatedFields : List Name
  sortOrders : List Int

/-- The `Cursor` struct returned by `Find`. -/
structure CursorOut where
  previous : Token
  next : Token
  hasPrevious : Bool
  hasNext : Bool
  count : Nat
deriving DecidableEq, Repr

/-- A successful `Find` outcome: the `Cursor` plus the records left in
the caller's results slice. -/
structure FindOut where
  cursor : CursorOut
  records : List Rec
deriving DecidableEq, Repr

/-- The two failure modes of `parseCursor`: `decodeCursor` failed, or the
decoded document's element count differs from the expected field count
(Go: `errors.New("expecting a cursor with a single element")` /
`fmt.Errorf("expecting a cursor with %d elements", n)`). -/
inductive ParseCursorErr where
  | decodeFailed (e : DecodeErr)
  | wrongArity (expected : Nat)
deriving DecidableEq, Repr

/-- The driver's error values. Go returns `error` values of distinct
dynamic types or distinct messages; the embedding keeps them structurally
distinguishable. `cursorError which e` is the `*CursorError` wrapping
`fmt.Errorf("%s cursor parse failed: %s", which, e)`. -/
inductive FindErr where
  | collectionNil
  | invalidLimit
  | cursorError (which : String) (e : ParseCursorErr)
  | queryGenError (msg : String)
  | invalidResults (msg : String)
  | paginatedFieldNotFound (f : Name)
  | storeError (msg : String)
deriving DecidableEq, Repr

/-- `ensureMandatoryParams` (mongo/find.go): default the single paginated
field to `_id` (discarding the collation), default `PaginatedFields` from
it, append the `_id` tiebreaker (with sort order 1) when absent, and fill
an empty `SortOrders` with ±1 per field according to `SortAscending`. -/
def ensureMandatoryParams (p : FindParams) : FindParams :=
  let p := if p.paginatedField = [] then
      { p with paginatedField := idName, collation := none }
    else p
  let p :=
    if p.paginatedFields = [] then
      if p.paginatedField = idName then { p with paginatedFields := [idName] }
      else { p with paginatedFields := [p.paginatedField, idName] }
    else if p.paginatedFields.getLast? ≠ some idName then
      { p with paginatedFields := p.paginatedFields ++ [idName],
               sortOrders := p.sortOrders ++ [1] }
    else p
  if p.sortOrders = [] then
    { p with sortOrders :=
        List.replicate p.paginatedFields.length (if p.sortAscending then 1 else -1) }
  else p

/-- `generateComparisonOps` (mongo/find.go). The Go function receives the
struct by value but writes `p.SortOrders[i] = ±1` through the shared
slice backing array, so the caller's `SortOrders` afterwards holds the
effective (inverted-for-`previous`) orders; the model returns the
comparison ops together with those effective orders. -/
def generateComparisonOps (previous : Token) (sortOrders : List Int) :
    List String × List Int :=
  (sortOrders.map fun o =>
      if (o = -1 ∧ previous ≠ []) ∨ (o = 1 ∧ previous = []) then "$gt" else "$lt",
   sortOrders.map fun o =>
      if (o = -1 ∧ previous ≠ []) ∨ (o = 1 ∧ previous = []) then 1 else -1)

/-- `parseCursor` (mongo/find.go): an empty token yields no cursor
values; otherwise decode and check the element count. -/
def parseCursor (cursor : Token) (numPaginatedFields : Nat) :
    Except ParseCursorErr (List BVal) :=
  if cursor = [] then .ok []
  else
    match decodeCursor cursor with
    | .error e => .error (.decodeFailed e)
    | .ok parsedCursor =>
      if parsedCursor.length ≠ numPaginatedFields then
        .error (.wrongArity numPaginatedFields)
      else .ok (parsedCursor.map (·.2))

/-- The sort document built in `BuildQueries`:
`sort = append(sort, bson.E{p.PaginatedFields[i], p.SortOrders[i]})`.
(Go panics if `SortOrders` is shorter than `PaginatedFields`; the model
returns a `0` order there, and theorems stay away from that case.) -/
def sortDoc (fields : List Name) (orders : List Int) : SortDoc :=
  (List.range fields.length).map fun i => (fields.getD i [], orders.getD i 0)

/-- `BuildQueries` (mongo/find.go): normalize, validate collection and
limit, parse both tokens, compute comparison ops, and augment the base
filter with the range query generated from the next token's values if
present, else the previous token's. -/
def BuildQueries (p0 : FindParams) : Except FindErr (List MQuery × SortDoc) :=
  let p := ensureMandatoryParams p0
  let numPaginatedFields :=
    if p.paginatedFields.length > 0 then p.paginatedFields.length else 1
  if p.collection.isNone then .error .collectionNil
  else if p.limit ≤ 0 then .error .invalidLimit
  else
    match parseCursor p.next numPaginatedFields with
    | .error e => .error (.cursorError "next" e)
    | .ok nextCursorValues =>
      match parseCursor p.previous numPaginatedFields with
      | .error e => .error (.cursorError "previous" e)
      | .ok previousCursorValues =>
        let ops := generateComparisonOps p.previous p.sortOrders
        let queries := [MQuery.base p.query]
        if p.next ≠ [] ∨ p.previous ≠ [] then
          let cursorValues := if p.next ≠ [] then nextCursorValues else previousCursorValues
          match GenerateCursorQuery p.paginatedFields ops.1 cursorValues with
          | .error msg => .error (.queryGenError msg)
          | .ok cursorQuery =>
            .ok (queries ++ [MQuery.cursor cursorQuery], sortDoc p.paginatedFields ops.2)
        else .ok (queries, sortDoc p.paginatedFields ops.2)

/-- The reflection-derived view of the caller's results slice that
`validate` (mongo/find.go) inspects: whether the argument is a pointer to
a slice of structs (non-slice-pointer and non-struct-element failures are
folded into `isSlicePtr`), whether the element type is `bson.Raw`
(skipping tag validation), and the bson tag names the element struct
exposes, with `inline` sub-struct tags flattened in
(`validateInlineFields`). -/
structure ResultsInfo where
  isSlicePtr : Bool
  rawDocs : Bool
  schemaFields : List Name

/-- `validate` (mongo/find.go): results must be a slice pointer and every
paginated field must match a bson tag of the element struct, unless the
elements are raw documents. -/
def validate (results : Option ResultsInfo) (paginatedFields : List Name) :
    Option FindErr :=
  match results with
  | none => some (.invalidResults "expected results to be non nil")
  | some info =>
    if !info.isSlicePtr then
      some (.invalidResults "expected results to be a slice pointer")
    else if info.rawDocs then none
    else
      match paginatedFields.find? (fun f => !info.schemaFields.contains f) with
      | some f => some (.paginatedFieldNotFound f)
      | none => none

/-- `generateCursor` (mongo/find.go). The record is re-marshalled and
decoded into a map; each paginated field whose value is present and
non-nil (absent keys and BSON null both read back as Go `nil`)
contributes one cursor pair, in field order; a missing field is skipped
with no error. The Go error paths (nil record, marshal failure) cannot
fire for records decoded from the store, so the model is total. -/
def generateCursor (result : Rec) (paginatedFields : List Name) : Token :=
  let cursorData := paginatedFields.filterMap fun f =>
    match bvLookup result f with
    | some v => if v = BVal.null then none else some (f, v)
    | none => none
  encodeCursor cursorData

/-- `generateCursor` of the mgo implementation (src/unnamed/part_001,
lines 322-368): fails with `fmt.Errorf("paginated field %s not found")`
when the declared paginated field is absent or null; with secondary
sort the `_id` value is appended without any such check (a missing
`_id` is marshalled as BSON null). -/
def mgoGenerateCursor (result : Rec) (paginatedField : Name)
    (shouldSecondarySortOnID : Bool) : Except String Token :=
  match bvLookup result paginatedField with
  | none => .error "paginated field not found"
  | some v =>
    if v = BVal.null then .error "paginated field not found"
    else
      let cursorData := [(paginatedField, v)]
      let cursorData := if shouldSecondarySortOnID then
          cursorData ++ [(idName, (bvLookup result idName).getD BVal.null)]
        else cursorData
      .ok (encodeCursor cursorData)

/-- `executeCursorQuery` (mongo/find.go): the bounded fetch requests
`limit + 1` records (`options.SetLimit(limit + 1)`). -/
def executeCursorQuery (c : CollectionM) (queries : List MQuery) (sort : SortDoc)
    (limit : Int) : Except String (List Rec) :=
  c.findDocs queries sort (limit + 1)

/-- `executeCountQuery` (mongo/find.go): count over the base filter only. -/
def executeCountQuery (c : CollectionM) (queries : List MQuery) : Except String Nat :=
  c.countDocuments queries

/-- The result post-processing of `Find` (mongo/find.go, lines 203-256):
boundary detection (`hasMore`), trailing-record drop, order correction
for backward traversal, has-flags, and cursor generation (only when the
page is non-empty). `p` is the normalized params, `count` the CountTotal
result (0 when not requested), `fetched` what the bounded fetch returned. -/
def postProcess (p : FindParams) (count : Nat) (fetched : List Rec) : FindOut :=
  let hasMore : Bool := decide (p.limit < (fetched.length : Int))
  let retained := if hasMore then fetched.dropLast else fetched
  let hasPrevious : Bool := !p.next.isEmpty || (!p.previous.isEmpty && hasMore)
  let hasNext : Bool := !p.previous.isEmpty || hasMore
  let ordered := if p.previous.isEmpty then retained else retained.reverse
  let previousCursor := if !ordered.isEmpty && hasPrevious then
      generateCursor (ordered.headD []) p.paginatedFields
    else []
  let nextCursor := if !ordered.isEmpty && hasNext then
      generateCursor (ordered.getLastD []) p.paginatedFields
    else []
  ⟨⟨previousCursor, nextCursor, hasPrevious, hasNext, count⟩, ordered⟩

/-- The remainder of `Find` after the optional count query: build the
queries, run the bounded fetch, post-process. (`p` is already
normalized; `BuildQueries` normalizes again, which is idempotent.) -/
def findAfterCount (p : FindParams) (count : Nat) (tr : List CallEvent) :
    Except FindErr FindOut × List CallEvent :=
  match BuildQueries p with
  | .error e => (.error e, tr)
  | .ok (queries, sort) =>
    match p.collection with
    | none => (.error .collectionNil, tr)
    | some c =>
      match executeCursorQuery c queries sort p.limit with
      | .error msg =>
        (.error (.storeError msg), tr ++ [.findDocs queries sort (p.limit + 1)])
      | .ok fetched =>
        (.ok (postProcess p count fetched), tr ++ [.findDocs queries sort (p.limit + 1)])

/-- `Find` (mongo/find.go): normalize, validate the results argument,
optionally run the count query (note: before `BuildQueries`, hence before
the limit validation), then build and run the bounded fetch and
post-process. Returns the Go result together with the queries executed. -/
def Find (p0 : FindParams) (results : Option ResultsInfo) :
    Except FindErr FindOut × List CallEvent :=
  let p := ensureMandatoryParams p0
  match validate results p.paginatedFields with
  | some e => (.error e, [])
  | none =>
    if p.countTotal then
      match p.collection with
      | none => (.error .collectionNil, [])
      | some c =>
        match executeCountQuery c [MQuery.base p.query] with
        | .error msg => (.error (.storeError msg), [.countDocuments [MQuery.base p.query]])
        | .ok count => findAfterCount p count [.countDocuments [MQuery.base p.query]]
    else findAfterCount p 0 []

/-! ## Pipeline lemmas for the driver theorems -/

theorem ensureMandatoryParams_preserves (p : FindParams) :
    (ensureMandatoryParams p).collection = p.collection ∧
    (ensureMandatoryParams p).query = p.query ∧
    (ensureMandatoryParams p).limit = p.limit ∧
    (ensureMandatoryParams p).next = p.next ∧
    (ensureMandatoryParams p).previous = p.previous ∧
    (ensureMandatoryParams p).countTotal = p.countTotal := by
  unfold ensureMandatoryParams
  dsimp only
  repeat' split
  all_goals exact ⟨rfl, rfl, rfl, rfl, rfl, rfl⟩

theorem find_eq_noCount (p : FindParams) (ri : Option ResultsInfo)
    (hval : validate ri (ensureMandatoryParams p).paginatedFields = none)
    (hcnt : p.countTotal = false) :
    Find p ri = findAfterCount (ensureMandatoryParams p) 0 [] := by
  have hpr := (ensureMandatoryParams_preserves p).2.2.2.2.2
  unfold Find
  dsimp only
  rw [hval, hpr, hcnt]
  simp

theorem find_eq_count (p : FindParams) (ri : Option ResultsInfo) (c : CollectionM) (n : Nat)
    (hval : validate ri (ensureMandatoryParams p).paginatedFields = none)
    (hcnt : p.countTotal = true)
    (hcol : p.collection = some c)
    (hcd : c.countDocuments [MQuery.base p.query] = .ok n) :
    Find p ri = findAfterCount (ensureMandatoryParams p) n
      [.countDocuments [MQuery.base p.query]] := by
  have hpr := ensureMandatoryParams_preserves p
  unfold Find
  dsimp only
  rw [hval, hpr.2.2.2.2.2, hcnt, hpr.1, hcol]
  simp only [executeCountQuery, hpr.2.1, hcd, if_pos]

theorem find_eq_countErr (p : FindParams) (ri : Option ResultsInfo) (c : CollectionM)
    (msg : String)
    (hval : validate ri (ensureMandatoryParams p).paginatedFields = none)
    (hcnt : p.countTotal = true)
    (hcol : p.collection = some c)
    (hcd : c.countDocuments [MQuery.base p.query] = .error msg) :
    Find p ri = (.error (.storeError msg), [.countDocuments [MQuery.base p.query]]) := by
  have hpr := ensureMandatoryParams_preserves p
  unfold Find
  dsimp only
  rw [hval, hpr.2.2.2.2.2, hcnt, hpr.1, hcol]
  simp only [executeCountQuery, hpr.2.1, hcd, if_pos]

theorem findAfterCount_err (p : FindParams) (n : Nat) (tr : List CallEvent) (e : FindErr)
    (hbq : BuildQueries p = .error e) :
    findAfterCount p n tr = (.error e, tr) := by
  unfold findAfterCount
  rw [hbq]

theorem findAfterCount_ok (p : FindParams) (n : Nat) (tr : List CallEvent)
    (c : CollectionM) (queries : List MQuery) (srt : SortDoc) (fetched : List Rec)
    (hbq : BuildQueries p = .ok (queries, srt))
    (hcol : p.collection = some c)
    (hfetch : c.findDocs queries srt (p.limit + 1) = .ok fetched) :
    findAfterCount p n tr =
      (.ok (postProcess p n fetched), tr ++ [.findDocs queries srt (p.limit + 1)]) := by
  unfold findAfterCount
  rw [hbq, hcol]
  simp only [executeCursorQuery, hfetch]

/-! ## Witness fixtures: a concrete store and parameters -/

/-- Two records `{_id: 1}`, `{_id: 2}`. -/
def wFetchRecs : List Rec := [[(idName, BVal.i32 1)], [(idName, BVal.i32 2)]]

/-- A store whose count is 7 and whose fetch returns `wFetchRecs`. -/
def wCollection : CollectionM := ⟨fun _ => .ok 7, fun _ _ _ => .ok wFetchRecs⟩

/-- A store whose fetch returns no records. -/
def wEmptyCollection : CollectionM := ⟨fun _ => .ok 7, fun _ _ _ => .ok []⟩

/-- A raw-documents results slice (skips schema validation). -/
def riRaw : Option ResultsInfo := some ⟨true, true, []⟩

/-- Default params: limit 1, no tokens, no explicit sort fields. -/
def wParams : FindParams := ⟨some wCollection, 0, 1, true, [], none, [], [], false, [], []⟩

theorem generateCursor_ne_nil (result : Rec) (fields : List Name) :
    generateCursor result fields ≠ [] :=
  encodeCursor_ne_nil _

theorem hasNext_formula_equiv :
    ∀ (ne pe m : Bool), (!pe || m) = (!pe || (!ne && m) || (ne && pe && m)) := by
  decide

/-- **C3** (confirmed). On every successful `Find` call — the results
argument validates, the optional count succeeds, `BuildQueries` succeeds,
and the bounded fetch returns `fetched` — with
`hasMore := fetched.length > limit`:
`hasPrevious = (next token supplied) OR (previous token supplied AND hasMore)`, and
`hasNext = (previous token supplied) OR (next token supplied AND hasMore)
OR (no token supplied AND hasMore)`. -/
theorem C3_has_flags (p : FindParams) (ri : Option ResultsInfo) (c : CollectionM)
    (count : Nat) (queries : List MQuery) (srt : SortDoc) (fetched : List Rec)
    (hval : validate ri (ensureMandatoryParams p).paginatedFields = none)
    (hcol : p.collection = some c)
    (hcount : p.countTotal = false ∨
      (p.countTotal = true ∧ c.countDocuments [MQuery.base p.query] = .ok count))
    (hbq : BuildQueries (ensureMandatoryParams p) = .ok (queries, srt))
    (hfetch : c.findDocs queries srt (p.limit + 1) = .ok fetched) :
    ∃ out tr, Find p ri = (.ok out, tr) ∧
      out.cursor.hasPrevious =
        (!p.next.isEmpty ||
          (!p.previous.isEmpty && decide (p.limit < (fetched.length : Int)))) ∧
      out.cursor.hasNext =
        (!p.previous.isEmpty ||
          (!p.next.isEmpty && decide (p.limit < (fetched.length : Int))) ||
          (p.next.isEmpty && p.previous.isEmpty &&
            decide (p.limit < (fetched.length : Int)))) := by
  have hpr := ensureMandatoryParams_preserves p
  have hcol' : (ensureMandatoryParams p).collection = some c := by rw [hpr.1, hcol]
  have hfetch' : c.findDocs queries srt ((ensureMandatoryParams p).limit + 1) = .ok fetched := by
    rw [hpr.2.2.1]
    exact hfetch
  have hout : ∀ n tr0, findAfterCount (ensureMandatoryParams p) n tr0 =
      (.ok (postProcess (ensureMandatoryParams p) n fetched),
        tr0 ++ [.findDocs queries srt ((ensureMandatoryParams p).limit + 1)]) :=
    fun n tr0 => findAfterCount_ok _ n tr0 c queries srt fetched hbq hcol' hfetch'
  have hflags : ∀ n,
      (postProcess (ensureMandatoryParams p) n fetched).cursor.hasPrevious =
        (!p.next.isEmpty ||
          (!p.previous.isEmpty && decide (p.limit < (fetched.length : Int)))) ∧
      (postProcess (ensureMandatoryParams p) n fetched).cursor.hasNext =
        (!p.previous.isEmpty ||
          (!p.next.isEmpty && decide (p.limit < (fetched.length : Int))) ||
          (p.next.isEmpty && p.previous.isEmpty &&
            decide (p.limit < (fetched.length : Int)))) := by
    intro n
    constructor
    · simp only [postProcess, hpr.2.2.1, hpr.2.2.2.1, hpr.2.2.2.2.1]
    · simp only [postProcess, hpr.2.2.1, hpr.2.2.2.1, hpr.2.2.2.2.1]
      exact hasNext_formula_equiv p.next.isEmpty p.previous.isEmpty _
  rcases hcount with hcnt | ⟨hcnt, hcd⟩
  · rw [find_eq_noCount p ri hval hcnt, hout 0 []]
    exact ⟨_, _, rfl, (hflags 0).1, (hflags 0).2⟩
  · rw [find_eq_count p ri c count hval hcnt hcol hcd, hout count _]
    exact ⟨_, _, rfl, (hflags count).1, (hflags count).2⟩

/-- Witness for C3 at a concrete call: no token, limit 1, two fetched
records (`hasMore`), so `hasPrevious = false`, `hasNext = true`. -/
theorem C3_witness :
    ∃ out tr, Find wParams riRaw = (.ok out, tr) ∧
      out.cursor.hasPrevious =
        (!wParams.next.isEmpty ||
          (!wParams.previous.isEmpty && decide (wParams.limit < (wFetchRecs.length : Int)))) ∧
      out.cursor.hasNext =
        (!wParams.previous.isEmpty ||
          (!wParams.next.isEmpty && decide (wParams.limit < (wFetchRecs.length : Int))) ||
          (wParams.next.isEmpty && wParams.previous.isEmpty &&
            decide (wParams.limit < (wFetchRecs.length : Int)))) :=
  C3_has_flags wParams riRaw wCollection 0 [MQuery.base 0] [(idName, 1)] wFetchRecs
    rfl rfl (Or.inl rfl) rfl rfl

theorem BuildQueries_ok_limit_pos {p : FindParams} {x : List MQuery × SortDoc}
    (h : BuildQueries p = .ok x) : 0 < p.limit := by
  by_contra hl
  push_neg at hl
  have hpr := (ensureMandatoryParams_preserves p).2.2.1
  unfold BuildQueries at h
  dsimp only at h
  rw [hpr] at h
  by_cases hc : (ensureMandatoryParams p).collection.isNone
  · rw [if_pos hc] at h
    exact Except.noConfusion h
  · rw [if_neg hc, if_pos hl] at h
    exact Except.noConfusion h

/-- **C4** (confirmed). On every `Find` call that reaches the bounded
fetch, the query executed against the collection requests exactly
`limit + 1` records (this is the limit recorded in the executed-query
trace); with `hasMore := fetched.length > limit`, exactly the one extra
trailing record is dropped when `hasMore` (before the backward-traversal
reversal), and — provided the store honours the requested limit
(`fetched.length ≤ limit + 1`) — the returned page holds at most `limit`
records. -/
theorem C4_bounded_fetch (p : FindParams) (ri : Option ResultsInfo) (c : CollectionM)
    (count : Nat) (queries : List MQuery) (srt : SortDoc) (fetched : List Rec)
    (hval : validate ri (ensureMandatoryParams p).paginatedFields = none)
    (hcol : p.collection = some c)
    (hcount : p.countTotal = false ∨
      (p.countTotal = true ∧ c.countDocuments [MQuery.base p.query] = .ok count))
    (hbq : BuildQueries (ensureMandatoryParams p) = .ok (queries, srt))
    (hfetch : c.findDocs queries srt (p.limit + 1) = .ok fetched)
    (hbound : (fetched.length : Int) ≤ p.limit + 1) :
    ∃ out tr, Find p ri = (.ok out, tr) ∧
      tr.getLast? = some (.findDocs queries srt (p.limit + 1)) ∧
      out.records =
        (if decide (p.limit < (fetched.length : Int)) then
          (if p.previous.isEmpty then fetched.dropLast else fetched.dropLast.reverse)
        else (if p.previous.isEmpty then fetched else fetched.reverse)) ∧
      (out.records.length : Int) ≤ p.limit := by
  have hpr := ensureMandatoryParams_preserves p
  have hcol' : (ensureMandatoryParams p).collection = some c := by rw [hpr.1, hcol]
  have hfetch' : c.findDocs queries srt ((ensureMandatoryParams p).limit + 1) = .ok fetched := by
    rw [hpr.2.2.1]
    exact hfetch
  have hout : ∀ n tr0, findAfterCount (ensureMandatoryParams p) n tr0 =
      (.ok (postProcess (ensureMandatoryParams p) n fetched),
        tr0 ++ [.findDocs queries srt ((ensureMandatoryParams p).limit + 1)]) :=
    fun n tr0 => findAfterCount_ok _ n tr0 c queries srt fetched hbq hcol' hfetch'
  have hrec : ∀ n, (postProcess (ensureMandatoryParams p) n fetched).records =
      (if decide (p.limit < (fetched.length : Int)) then
        (if p.previous.isEmpty then fetched.dropLast else fetched.dropLast.reverse)
      else (if p.previous.isEmpty then fetched else fetched.reverse)) := by
    intro n
    simp only [postProcess, hpr.2.2.1, hpr.2.2.2.2.1]
    rcases h : decide (p.limit < (fetched.length : Int)) with _ | _ <;>
      rcases h2 : p.previous.isEmpty with _ | _ <;> simp
  have hlim : 0 < p.limit := by
    have hx := BuildQueries_ok_limit_pos hbq
    rwa [hpr.2.2.1] at hx
  have hreclen : ∀ n, ((postProcess (ensureMandatoryParams p) n fetched).records.length : Int)
      ≤ p.limit := by
    intro n
    rw [hrec n]
    by_cases hm : p.limit < (fetched.length : Int)
    · have h1 : 1 ≤ fetched.length := by omega
      by_cases h2 : p.previous.isEmpty <;> simp [hm, h2, Nat.cast_sub h1] <;> omega
    · by_cases h2 : p.previous.isEmpty <;> simp [hm, h2] <;> omega
  rcases hcount with hcnt | ⟨hcnt, hcd⟩
  · rw [find_eq_noCount p ri hval hcnt, hout 0 [], hpr.2.2.1]
    exact ⟨_, _, rfl, by simp, hrec 0, hreclen 0⟩
  · rw [find_eq_count p ri c count hval hcnt hcol hcd, hout count _, hpr.2.2.1]
    exact ⟨_, _, rfl, by simp, hrec count, hreclen count⟩

/-- Witness for C4 at a concrete call: limit 1, two records fetched, so
the trailing record is dropped and one record is returned. -/
theorem C4_witness :
    ∃ out tr, Find wParams riRaw = (.ok out, tr) ∧
      tr.getLast? = some (.findDocs [MQuery.base 0] [(idName, 1)] (wParams.limit + 1)) ∧
      out.records =
        (if decide (wParams.limit < (wFetchRecs.length : Int)) then
          (if wParams.previous.isEmpty then wFetchRecs.dropLast else wFetchRecs.dropLast.reverse)
        else (if wParams.previous.isEmpty then wFetchRecs else wFetchRecs.reverse)) ∧
      (out.records.length : Int) ≤ wParams.limit :=
  C4_bounded_fetch wParams riRaw wCollection 0 [MQuery.base 0] [(idName, 1)] wFetchRecs
    rfl rfl (Or.inl rfl) rfl rfl (by norm_num [wFetchRecs, wParams])

theorem BuildQueries_invalidLimit {p : FindParams} (c : CollectionM)
    (hcol : p.collection = some c) (hlim : p.limit ≤ 0) :
    BuildQueries p = .error .invalidLimit := by
  have hprc := (ensureMandatoryParams_preserves p).1
  have hprl := (ensureMandatoryParams_preserves p).2.2.1
  unfold BuildQueries
  dsimp only
  rw [if_neg (by rw [hprc, hcol]; simp), if_pos (by rw [hprl]; exact hlim)]

/-- **C5** (counterexample). A `Find` call with `Limit = 0` and
`CountTotal = true` executes the count query against the collection
before failing with the invalid-limit error: the executed-query trace is
not empty, contradicting "no query of any kind is executed ... regardless
of whether CountTotal is requested". -/
theorem C5_counterexample :
    Find ⟨some wCollection, 0, 0, true, [], none, [], [], true, [], []⟩ riRaw =
      (.error .invalidLimit, [.countDocuments [MQuery.base 0]]) := rfl

/-- **C5** (amended, proved). With `Limit ≤ 0` (and a validating results
argument and non-nil collection): when `CountTotal` is false, `Find`
fails with the invalid-limit error and no query is executed; when
`CountTotal` is true, the count query is executed first — then the call
fails with the invalid-limit error (or with the count's own error) — and
the bounded fetch is never executed. -/
theorem C5_amended (p : FindParams) (ri : Option ResultsInfo) (c : CollectionM)
    (hval : validate ri (ensureMandatoryParams p).paginatedFields = none)
    (hcol : p.collection = some c)
    (hlim : p.limit ≤ 0) :
    (p.countTotal = false → Find p ri = (.error .invalidLimit, [])) ∧
    (∀ n, p.countTotal = true → c.countDocuments [MQuery.base p.query] = .ok n →
      Find p ri = (.error .invalidLimit, [.countDocuments [MQuery.base p.query]])) ∧
    (∀ msg, p.countTotal = true → c.countDocuments [MQuery.base p.query] = .error msg →
      Find p ri = (.error (.storeError msg), [.countDocuments [MQuery.base p.query]])) := by
  have hcol' : (ensureMandatoryParams p).collection = some c := by
    rw [(ensureMandatoryParams_preserves p).1, hcol]
  have hlim' : (ensureMandatoryParams p).limit ≤ 0 := by
    rw [(ensureMandatoryParams_preserves p).2.2.1]
    exact hlim
  have hbq : BuildQueries (ensureMandatoryParams p) = .error .invalidLimit :=
    BuildQueries_invalidLimit c hcol' hlim'
  refine ⟨fun hcnt => ?_, fun n hcnt hcd => ?_, fun msg hcnt hcd => ?_⟩
  · rw [find_eq_noCount p ri hval hcnt, findAfterCount_err _ 0 [] _ hbq]
  · rw [find_eq_count p ri c n hval hcnt hcol hcd, findAfterCount_err _ n _ _ hbq]
  · exact find_eq_countErr p ri c msg hval hcnt hcol hcd

/-- Witness for the amended C5 at a concrete call with `CountTotal`. -/
theorem C5_witness :
    Find ⟨some wCollection, 0, 0, true, [], none, [], [], true, [], []⟩ riRaw =
      (.error .invalidLimit, [.countDocuments [MQuery.base 0]]) :=
  (C5_amended ⟨some wCollection, 0, 0, true, [], none, [], [], true, [], []⟩ riRaw
    wCollection rfl rfl (by norm_num)).2.1 7 rfl rfl

/-- The tokens of a post-processed page are non-empty exactly when the
page is non-empty and the corresponding flag is set (the generated token
itself is never the empty string). -/
theorem postProcess_token_iff (p : FindParams) (n : Nat) (fetched : List Rec) :
    ((postProcess p n fetched).records ≠ [] →
      (((postProcess p n fetched).cursor.previous ≠ []) ↔
        (postProcess p n fetched).cursor.hasPrevious = true) ∧
      (((postProcess p n fetched).cursor.next ≠ []) ↔
        (postProcess p n fetched).cursor.hasNext = true)) ∧
    ((postProcess p n fetched).records = [] →
      (postProcess p n fetched).cursor.previous = [] ∧
      (postProcess p n fetched).cursor.next = []) := by
  simp only [postProcess]
  generalize (!p.next.isEmpty || (!p.previous.isEmpty &&
    decide (p.limit < (fetched.length : Int)))) = flagP
  generalize (!p.previous.isEmpty || decide (p.limit < (fetched.length : Int))) = flagN
  generalize (if p.previous.isEmpty then
      (if decide (p.limit < (fetched.length : Int)) then fetched.dropLast else fetched)
    else
      (if decide (p.limit < (fetched.length : Int)) then fetched.dropLast
        else fetched).reverse) = ordered
  constructor
  · intro hne
    have hie : ordered.isEmpty = false := by
      rw [List.isEmpty_eq_false_iff_exists_mem]
      rcases ordered with _ | ⟨a, rest⟩
      · exact absurd rfl hne
      · exact ⟨a, by simp⟩
    rcases flagP <;> rcases flagN <;>
      simp [hie, generateCursor_ne_nil]
  · intro hnil
    subst hnil
    simp

/-- **C6** (counterexample). A `Find` call with a valid previous token
whose fetch returns no records succeeds with `HasNext = true` but an
empty `Next` token (cursors are only generated for non-empty pages), so
"non-empty iff the has-flag is true, including for zero-record pages"
fails. -/
theorem C6_counterexample :
    (Find ⟨some wEmptyCollection, 0, 1, true, [], none, [],
        encodeCursor [(idName, BVal.i32 5)], false, [], []⟩ riRaw).1 =
      .ok ⟨⟨[], [], false, true, 0⟩, []⟩ := rfl

/-- **C6** (amended, proved). On every successful `Find` call whose page
is non-empty, the `Previous`/`Next` token is non-empty exactly when the
corresponding has-flag is true; on a zero-record page both tokens are
empty regardless of the flags. -/
theorem C6_amended (p : FindParams) (ri : Option ResultsInfo) (c : CollectionM)
    (count : Nat) (queries : List MQuery) (srt : SortDoc) (fetched : List Rec)
    (hval : validate ri (ensureMandatoryParams p).paginatedFields = none)
    (hcol : p.collection = some c)
    (hcount : p.countTotal = false ∨
      (p.countTotal = true ∧ c.countDocuments [MQuery.base p.query] = .ok count))
    (hbq : BuildQueries (ensureMandatoryParams p) = .ok (queries, srt))
    (hfetch : c.findDocs queries srt (p.limit + 1) = .ok fetched) :
    ∃ out tr, Find p ri = (.ok out, tr) ∧
      (out.records ≠ [] →
        ((out.cursor.previous ≠ []) ↔ out.cursor.hasPrevious = true) ∧
        ((out.cursor.next ≠ []) ↔ out.cursor.hasNext = true)) ∧
      (out.records = [] → out.cursor.previous = [] ∧ out.cursor.next = []) := by
  have hpr := ensureMandatoryParams_preserves p
  have hcol' : (ensureMandatoryParams p).collection = some c := by rw [hpr.1, hcol]
  have hfetch' : c.findDocs queries srt ((ensureMandatoryParams p).limit + 1) = .ok fetched := by
    rw [hpr.2.2.1]
    exact hfetch
  have hout : ∀ n tr0, findAfterCount (ensureMandatoryParams p) n tr0 =
      (.ok (postProcess (ensureMandatoryParams p) n fetched),
        tr0 ++ [.findDocs queries srt ((ensureMandatoryParams p).limit + 1)]) :=
    fun n tr0 => findAfterCount_ok _ n tr0 c queries srt fetched hbq hcol' hfetch'
  have hpp : ∀ n,
      ((postProcess (ensureMandatoryParams p) n fetched).records ≠ [] →
        (((postProcess (ensureMandatoryParams p) n fetched).cursor.previous ≠ []) ↔
          (postProcess (ensureMandatoryParams p) n fetched).cursor.hasPrevious = true) ∧
        (((postProcess (ensureMandatoryParams p) n fetched).cursor.next ≠ []) ↔
          (postProcess (ensureMandatoryParams p) n fetched).cursor.hasNext = true)) ∧
      ((postProcess (ensureMandatoryParams p) n fetched).records = [] →
        (postProcess (ensureMandatoryParams p) n fetched).cursor.previous = [] ∧
        (postProcess (ensureMandatoryParams p) n fetched).cursor.next = []) := by
    intro n
    exact postProcess_token_iff _ _ _
  rcases hcount with hcnt | ⟨hcnt, hcd⟩
  · rw [find_eq_noCount p ri hval hcnt, hout 0 []]
    exact ⟨_, _, rfl, (hpp 0).1, (hpp 0).2⟩
  · rw [find_eq_count p ri c count hval hcnt hcol hcd, hout count _]
    exact ⟨_, _, rfl, (hpp count).1, (hpp count).2⟩

/-- Witness for the amended C6 at a concrete call. -/
theorem C6_witness :
    ∃ out tr, Find wParams riRaw = (.ok out, tr) ∧
      (out.records ≠ [] →
        ((out.cursor.previous ≠ []) ↔ out.cursor.hasPrevious = true) ∧
        ((out.cursor.next ≠ []) ↔ out.cursor.hasNext = true)) ∧
      (out.records = [] → out.cursor.previous = [] ∧ out.cursor.next = []) :=
  C6_amended wParams riRaw wCollection 0 [MQuery.base 0] [(idName, 1)] wFetchRecs
    rfl rfl (Or.inl rfl) rfl rfl

theorem ensureMandatoryParams_fields_ne_nil (p : FindParams) :
    (ensureMandatoryParams p).paginatedFields ≠ [] := by
  unfold ensureMandatoryParams
  dsimp only
  repeat' split
  all_goals simp_all

theorem parseCursor_empty (n : Nat) : parseCursor [] n = .ok [] := rfl

theorem parseCursor_decodeErr {t : Token} {n : Nat} {e : DecodeErr}
    (ht : t ≠ []) (hd : decodeCursor t = .error e) :
    parseCursor t n = .error (.decodeFailed e) := by
  unfold parseCursor
  rw [if_neg ht, hd]

theorem parseCursor_arityErr {t : Token} {n : Nat} {doc : CursorDoc}
    (ht : t ≠ []) (hd : decodeCursor t = .ok doc) (hn : doc.length ≠ n) :
    parseCursor t n = .error (.wrongArity n) := by
  unfold parseCursor
  rw [if_neg ht, hd]
  dsimp only
  rw [if_pos hn]

/-- The `numPaginatedFields` computed in `BuildQueries` equals the
normalized field count (normalization never leaves it empty). -/
theorem numPaginatedFields_eq (p : FindParams) :
    (if (ensureMandatoryParams p).paginatedFields.length > 0 then
      (ensureMandatoryParams p).paginatedFields.length else 1) =
    (ensureMandatoryParams p).paginatedFields.length := by
  have h := ensureMandatoryParams_fields_ne_nil p
  rw [if_pos]
  rcases hf : (ensureMandatoryParams p).paginatedFields with _ | _
  · exact absurd hf h
  · simp

/-- `BuildQueries` surfaces a failed parse of the next token as the
`CursorError` wrapping it (with a non-nil collection, a positive limit). -/
theorem BuildQueries_nextErr (p : FindParams) (c : CollectionM) (e : ParseCursorErr)
    (hcol : p.collection = some c) (hlim : 0 < p.limit)
    (hpc : parseCursor p.next
      (ensureMandatoryParams p).paginatedFields.length = .error e) :
    BuildQueries p = .error (.cursorError "next" e) := by
  have hpr := ensureMandatoryParams_preserves p
  unfold BuildQueries
  dsimp only
  rw [numPaginatedFields_eq p, if_neg (by rw [hpr.1, hcol]; simp),
    if_neg (by rw [hpr.2.2.1]; omega), hpr.2.2.2.1, hpc]

/-- Same for the previous token, once the next token parses. -/
theorem BuildQueries_prevErr (p : FindParams) (c : CollectionM) (e : ParseCursorErr)
    (vals : List BVal)
    (hcol : p.collection = some c) (hlim : 0 < p.limit)
    (hnext : parseCursor p.next
      (ensureMandatoryParams p).paginatedFields.length = .ok vals)
    (hpc : parseCursor p.previous
      (ensureMandatoryParams p).paginatedFields.length = .error e) :
    BuildQueries p = .error (.cursorError "previous" e) := by
  have hpr := ensureMandatoryParams_preserves p
  unfold BuildQueries
  dsimp only
  rw [numPaginatedFields_eq p, if_neg (by rw [hpr.1, hcol]; simp),
    if_neg (by rw [hpr.2.2.1]; omega), hpr.2.2.2.1, hnext]
  dsimp only
  rw [hpr.2.2.2.2.1, hpc]

theorem ensureMandatoryParams_props (p : FindParams) :
    (ensureMandatoryParams p).paginatedField ≠ [] ∧
    (ensureMandatoryParams p).paginatedFields.getLast? = some idName ∧
    (ensureMandatoryParams p).sortOrders ≠ [] := by
  unfold ensureMandatoryParams
  dsimp only
  repeat' split
  all_goals
    simp_all [idName, List.getLast?_concat, List.replicate_eq_nil_iff, List.length_eq_zero]

theorem ensureMandatoryParams_eq_self {q : FindParams} (h1 : q.paginatedField ≠ [])
    (h2 : q.paginatedFields.getLast? = some idName) (h3 : q.sortOrders ≠ []) :
    ensureMandatoryParams q = q := by
  have h4 : q.paginatedFields ≠ [] := by
    intro h
    rw [h] at h2
    exact Option.noConfusion h2
  unfold ensureMandatoryParams
  dsimp only
  rw [if_neg h1, if_neg h4,
    if_neg (show ¬(q.paginatedFields.getLast? ≠ some idName) by simp [h2]),
    if_neg h3]

theorem ensureMandatoryParams_idem (p : FindParams) :
    ensureMandatoryParams (ensureMandatoryParams p) = ensureMandatoryParams p := by
  obtain ⟨h1, h2, h3⟩ := ensureMandatoryParams_props p
  exact ensureMandatoryParams_eq_self h1 h2 h3

/-- **C7** (confirmed). For every non-empty supplied next or previous
token, `Find` returns the `CursorError` (not a plain error value) both
when the token fails base64/BSON decoding and when the decoded pair
count differs from the (normalized) paginated field count — and the two
inner error values are distinct, so the arity mismatch is
distinguishable from the decode failure. -/
theorem C7_cursor_errors (p : FindParams) (ri : Option ResultsInfo) (c : CollectionM)
    (hval : validate ri (ensureMandatoryParams p).paginatedFields = none)
    (hcol : p.collection = some c)
    (hlim : 0 < p.limit)
    (hcount : p.countTotal = false ∨
      ∃ n, c.countDocuments [MQuery.base p.query] = .ok n) :
    (∀ e, p.next ≠ [] → decodeCursor p.next = .error e →
      ∃ tr, Find p ri = (.error (.cursorError "next" (.decodeFailed e)), tr)) ∧
    (∀ doc, p.next ≠ [] → decodeCursor p.next = .ok doc →
      doc.length ≠ (ensureMandatoryParams p).paginatedFields.length →
      ∃ tr, Find p ri =
        (.error (.cursorError "next"
          (.wrongArity (ensureMandatoryParams p).paginatedFields.length)), tr)) ∧
    (∀ e, p.next = [] → p.previous ≠ [] → decodeCursor p.previous = .error e →
      ∃ tr, Find p ri = (.error (.cursorError "previous" (.decodeFailed e)), tr)) ∧
    (∀ doc, p.next = [] → p.previous ≠ [] → decodeCursor p.previous = .ok doc →
      doc.length ≠ (ensureMandatoryParams p).paginatedFields.length →
      ∃ tr, Find p ri =
        (.error (.cursorError "previous"
          (.wrongArity (ensureMandatoryParams p).paginatedFields.length)), tr)) ∧
    (∀ e m, ParseCursorErr.decodeFailed e ≠ ParseCursorErr.wrongArity m) := by
  have hfind : ∀ er : FindErr, BuildQueries (ensureMandatoryParams p) = .error er →
      ∃ tr, Find p ri = (.error er, tr) := by
    intro er hbq
    rcases hcnt : p.countTotal with _ | _
    · exact ⟨[], by rw [find_eq_noCount p ri hval hcnt, findAfterCount_err _ 0 [] _ hbq]⟩
    · rcases hcount with hc | ⟨n, hn⟩
      · exact absurd hcnt (by rw [hc]; simp)
      · exact ⟨_, by rw [find_eq_count p ri c n hval hcnt hcol hn,
          findAfterCount_err _ n _ _ hbq]⟩
  have hcol2 : (ensureMandatoryParams p).collection = some c := by
    rw [(ensureMandatoryParams_preserves p).1, hcol]
  have hlim2 : 0 < (ensureMandatoryParams p).limit := by
    rw [(ensureMandatoryParams_preserves p).2.2.1]
    exact hlim
  have hidem : ensureMandatoryParams (ensureMandatoryParams p) = ensureMandatoryParams p :=
    ensureMandatoryParams_idem p
  refine ⟨?_, ?_, ?_, ?_, ?_⟩
  · intro e hne hd
    refine hfind _ ?_
    have := BuildQueries_nextErr (ensureMandatoryParams p) c (.decodeFailed e) hcol2 hlim2 ?_
    · exact this
    · rw [hidem, (ensureMandatoryParams_preserves p).2.2.2.1]
      exact parseCursor_decodeErr hne hd
  · intro doc hne hd hlen
    refine hfind _ ?_
    have := BuildQueries_nextErr (ensureMandatoryParams p) c
      (.wrongArity (ensureMandatoryParams p).paginatedFields.length) hcol2 hlim2 ?_
    · exact this
    · rw [hidem, (ensureMandatoryParams_preserves p).2.2.2.1]
      exact parseCursor_arityErr hne hd hlen
  · intro e hnx hne hd
    refine hfind _ ?_
    have := BuildQueries_prevErr (ensureMandatoryParams p) c (.decodeFailed e) []
      hcol2 hlim2 ?_ ?_
    · exact this
    · rw [hidem, (ensureMandatoryParams_preserves p).2.2.2.1, hnx]
      exact parseCursor_empty _
    · rw [hidem, (ensureMandatoryParams_preserves p).2.2.2.2.1]
      exact parseCursor_decodeErr hne hd
  · intro doc hnx hne hd hlen
    refine hfind _ ?_
    have := BuildQueries_prevErr (ensureMandatoryParams p) c
      (.wrongArity (ensureMandatoryParams p).paginatedFields.length) []
      hcol2 hlim2 ?_ ?_
    · exact this
    · rw [hidem, (ensureMandatoryParams_preserves p).2.2.2.1, hnx]
      exact parseCursor_empty _
    · rw [hidem, (ensureMandatoryParams_preserves p).2.2.2.2.1]
      exact parseCursor_arityErr hne hd hlen
  · intro e m
    exact fun h => ParseCursorErr.noConfusion h

/-- Witness for C7: a next token of the single byte `!` (0x21), outside
the base64url alphabet, yields the wrapped decode `CursorError`. -/
theorem C7_witness :
    ∃ tr, Find ⟨some wCollection, 0, 1, true, [], none, [33], [], false, [], []⟩ riRaw =
      (.error (.cursorError "next" (.decodeFailed .corruptBase64)), tr) :=
  (C7_cursor_errors ⟨some wCollection, 0, 1, true, [], none, [33], [], false, [], []⟩
    riRaw wCollection rfl rfl (by decide) (Or.inl rfl)).1 .corruptBase64 (by decide) rfl

/-! ## C8: cursor generation from records missing sort fields -/

/-- The cursor pairs `generateCursor` keeps: the paginated fields whose
value is present and non-null in the record, in field order. -/
def presentPairs (result : Rec) (paginatedFields : List Name) : CursorDoc :=
  paginatedFields.filterMap fun f =>
    match bvLookup result f with
    | some v => if v = BVal.null then none else some (f, v)
    | none => none

theorem presentPairs_not_mem {result : Rec} {pf : Name}
    (hmiss : bvLookup result pf = none) :
    ∀ fields, pf ∉ (presentPairs result fields).map Prod.fst := by
  intro fields
  induction fields with
  | nil => simp [presentPairs]
  | cons g gs ih =>
    simp only [presentPairs, List.filterMap_cons] at ih ⊢
    cases hbg : bvLookup result g with
    | none =>
      dsimp only
      exact ih
    | some v =>
      dsimp only
      by_cases hv : v = BVal.null
      · rw [if_pos hv]
        dsimp only
        exact ih
      · rw [if_neg hv]
        dsimp only
        intro hmem
        simp only [List.map_cons, List.mem_cons] at hmem
        rcases hmem with hmem | hmem
        · rw [hmem] at hmiss
          rw [hmiss] at hbg
          exact Option.noConfusion hbg
        · exact ih hmem

/-- A store fetching two empty records (no `_id` value at all). -/
def wEmptyRecCollection : CollectionM := ⟨fun _ => .ok 7, fun _ _ _ => .ok [[], []]⟩

/-- **C8** (counterexample). The bounded fetch returns records with no
value for the sole (required) paginated field `_id`, yet `Find` succeeds
— no missing-paginated-field error — returning a next token that encodes
the empty document: the missing required field was silently omitted. -/
theorem C8_counterexample :
    (Find ⟨some wEmptyRecCollection, 0, 1, true, [], none, [], [], false, [], []⟩ riRaw).1 =
      .ok ⟨⟨[], encodeCursor [], false, true, 0⟩, [[]]⟩ ∧
    encodeCursor [] ≠ [] :=
  ⟨rfl, encodeCursor_ne_nil []⟩

/-- **C8** (amended, proved). The mongo-driver `generateCursor` never
fails on a record lacking a sort-field value: it emits the token of
exactly the present non-null (field, value) pairs — decoding the token
returns them — and a missing field (here `pf`) is silently absent from
the token. Only the mgo implementation's `generateCursor` fails (with
"paginated field ... not found"), and only for its single declared
paginated field. -/
theorem C8_missing_field_behaviour (result : Rec) (fields : List Name) (pf : Name) (b : Bool)
    (hwf : docWF (presentPairs result fields))
    (hlen : 4 + (docBody (presentPairs result fields)).length + 1 < 2 ^ 32)
    (hmiss : bvLookup result pf = none) :
    generateCursor result fields = encodeCursor (presentPairs result fields) ∧
    decodeCursor (generateCursor result fields) = .ok (presentPairs result fields) ∧
    pf ∉ (presentPairs result fields).map Prod.fst ∧
    mgoGenerateCursor result pf b = .error "paginated field not found" := by
  refine ⟨rfl, ?_, presentPairs_not_mem hmiss fields, ?_⟩
  · exact decodeCursor_encodeCursor _ hwf hlen
  · unfold mgoGenerateCursor
    rw [hmiss]

/-- Witness for C8 at a record `{a: "x"}` with fields `["_id"]`. -/
theorem C8_witness :
    generateCursor [([97], BVal.str [120])] [idName] =
      encodeCursor (presentPairs [([97], BVal.str [120])] [idName]) ∧
    decodeCursor (generateCursor [([97], BVal.str [120])] [idName]) =
      .ok (presentPairs [([97], BVal.str [120])] [idName]) ∧
    idName ∉ (presentPairs [([97], BVal.str [120])] [idName]).map Prod.fst ∧
    mgoGenerateCursor [([97], BVal.str [120])] idName true =
      .error "paginated field not found" :=
  C8_missing_field_behaviour [([97], BVal.str [120])] [idName] idName true
    (by decide) (by decide) (by decide)

/-! ## C9: parameter normalization -/

theorem idName_ne_nil : idName ≠ [] := by decide

/-- **C9** (counterexample). With no paginated field given and
`SortAscending = false`, normalization defaults the sort to `_id`
descending (order `-1`), not ascending as claimed. -/
theorem C9_counterexample :
    (ensureMandatoryParams ⟨none, 0, 1, false, [], none, [], [], false, [], []⟩).paginatedFields
      = [idName] ∧
    (ensureMandatoryParams ⟨none, 0, 1, false, [], none, [], [], false, [], []⟩).sortOrders
      = [-1] :=
  ⟨rfl, rfl⟩

/-- **C9** (amended, proved). Normalization behaves as follows:
(a) with no paginated field, no field list and no sort orders, the sort
defaults to `_id` only with direction given by `SortAscending` (`1` if
true, `-1` if false — not unconditionally ascending) and the collation
is discarded; (b) a field list without a trailing `_id` gets `_id`
appended with ascending order `1` appended to the sort orders (even when
they were empty — the source of the length mismatch below); (c) the
field and order lists end up the same length provided the caller passed
no sort orders together with a field list that is empty or already
`_id`-terminated, or passed sort orders of the same length as a
non-empty field list. -/
theorem C9_normalization (p : FindParams) :
    (p.paginatedField = [] → p.paginatedFields = [] → p.sortOrders = [] →
      (ensureMandatoryParams p).paginatedFields = [idName] ∧
      (ensureMandatoryParams p).sortOrders = [if p.sortAscending then 1 else -1] ∧
      (ensureMandatoryParams p).collation = none) ∧
    (p.paginatedFields ≠ [] → p.paginatedFields.getLast? ≠ some idName →
      (ensureMandatoryParams p).paginatedFields = p.paginatedFields ++ [idName] ∧
      (ensureMandatoryParams p).sortOrders = p.sortOrders ++ [1]) ∧
    ((p.sortOrders = [] ∧ (p.paginatedFields = [] ∨ p.paginatedFields.getLast? = some idName))
        ∨ (p.paginatedFields ≠ [] ∧ p.sortOrders.length = p.paginatedFields.length) →
      (ensureMandatoryParams p).sortOrders.length =
        (ensureMandatoryParams p).paginatedFields.length) := by
  refine ⟨fun h1 h2 h3 => ?_, fun h2 h4 => ?_, fun hc => ?_⟩
  · simp [ensureMandatoryParams, h1, h2, h3, idName_ne_nil]
  · by_cases h1 : p.paginatedField = [] <;>
      simp [ensureMandatoryParams, h1, h2, h4, idName_ne_nil]
  · rcases hpfs : p.paginatedFields with _ | ⟨g, gs⟩
    · rcases hc with ⟨h3, _⟩ | ⟨hne, _⟩
      · by_cases h1 : p.paginatedField = []
        · simp [ensureMandatoryParams, h1, hpfs, h3, idName_ne_nil]
        · by_cases hid : p.paginatedField = idName <;>
            simp [ensureMandatoryParams, h1, hpfs, h3, hid, idName_ne_nil]
      · exact absurd hpfs hne
    · have h2 : p.paginatedFields ≠ [] := by rw [hpfs]; simp
      rcases hc with ⟨h3, hl⟩ | ⟨_, hl⟩
      · rcases hl with hl | hl
        · rw [hpfs] at hl
          exact absurd hl (by simp)
        · by_cases h1 : p.paginatedField = [] <;>
            simp [ensureMandatoryParams, h1, h2, hl, h3, idName_ne_nil]
      · by_cases h4 : p.paginatedFields.getLast? = some idName
        · have ho : p.sortOrders ≠ [] := by
            intro h
            rw [h] at hl
            rw [hpfs] at hl
            simp at hl
          by_cases h1 : p.paginatedField = [] <;>
            simp [ensureMandatoryParams, h1, h2, h4, ho, hl, idName_ne_nil]
        · have ho : p.sortOrders ++ [1] ≠ [] := by simp
          by_cases h1 : p.paginatedField = [] <;>
            simp [ensureMandatoryParams, h1, h2, h4, ho, hl, idName_ne_nil]

/-! ## C10: calls supplying both a next and a previous token -/

theorem parseCursor_ok_length {t : Token} {n : Nat} {vals : List BVal}
    (ht : t ≠ []) (h : parseCursor t n = .ok vals) : vals.length = n := by
  unfold parseCursor at h
  rw [if_neg ht] at h
  cases hd : decodeCursor t with
  | error e =>
    rw [hd] at h
    exact Except.noConfusion h
  | ok doc =>
    rw [hd] at h
    dsimp only at h
    by_cases hl : doc.length ≠ n
    · rw [if_pos hl] at h
      exact Except.noConfusion h
    · rw [if_neg hl] at h
      push_neg at hl
      cases h
      simp [hl]

theorem generateComparisonOps_backward {previous : Token} (hprev : previous ≠ [])
    (sortOrders : List Int) :
    generateComparisonOps previous sortOrders =
      (sortOrders.map fun o => if o = -1 then "$gt" else "$lt",
       sortOrders.map fun o => if o = -1 then 1 else -1) := by
  unfold generateComparisonOps
  rw [Prod.mk.injEq]
  constructor <;>
    [refine List.map_congr_left fun o ho => ?_; refine List.map_congr_left fun o ho => ?_] <;>
    by_cases h : o = -1 <;> simp [h, hprev]

theorem generateComparisonOps_valid (previous : Token) (sortOrders : List Int) :
    ∀ op ∈ (generateComparisonOps previous sortOrders).1, op = "$lt" ∨ op = "$gt" := by
  intro op hop
  unfold generateComparisonOps at hop
  simp only [List.mem_map] at hop
  obtain ⟨o, _, ho⟩ := hop
  rw [← ho]
  by_cases h : (o = -1 ∧ previous ≠ []) ∨ (o = 1 ∧ previous = []) <;> simp [h]

theorem GenerateCursorQuery_ok {α : Type} [Inhabited α] {fields : List Name}
    {ops : List String} {vals : List α}
    (h1 : fields.length = vals.length) (h2 : ops.length = vals.length)
    (hops : ∀ op ∈ ops, op = "$lt" ∨ op = "$gt") :
    ∃ cq, GenerateCursorQuery fields ops vals = .ok cq := by
  unfold GenerateCursorQuery
  rw [if_neg (by omega), if_neg (by omega), if_neg (not_not.mpr hops)]
  by_cases hgt : fields.length > 1
  · rw [if_pos hgt]
    by_cases h2f : fields.length = 2
    · rw [if_pos h2f]
      exact ⟨_, rfl⟩
    · rw [if_neg h2f]
      exact ⟨_, rfl⟩
  · rw [if_neg hgt]
    exact ⟨_, rfl⟩

/-- `BuildQueries` on a call carrying both tokens: not rejected; the
range query is generated from the next token's values with the
backward-traversal comparison operators, and the sort uses the inverted
orders. -/
theorem BuildQueries_both_tokens (p : FindParams) (c : CollectionM)
    (nextVals prevVals : List BVal)
    (hcol : p.collection = some c) (hlim : 0 < p.limit)
    (hnext : p.next ≠ []) (hprev : p.previous ≠ [])
    (hpn : parseCursor p.next (ensureMandatoryParams p).paginatedFields.length = .ok nextVals)
    (hpp : parseCursor p.previous (ensureMandatoryParams p).paginatedFields.length = .ok prevVals)
    (hlens : (ensureMandatoryParams p).sortOrders.length =
      (ensureMandatoryParams p).paginatedFields.length) :
    ∃ cq, GenerateCursorQuery (ensureMandatoryParams p).paginatedFields
        ((ensureMandatoryParams p).sortOrders.map fun o => if o = -1 then "$gt" else "$lt")
        nextVals = .ok cq ∧
      BuildQueries p = .ok ([MQuery.base p.query, MQuery.cursor cq],
        sortDoc (ensureMandatoryParams p).paginatedFields
          ((ensureMandatoryParams p).sortOrders.map fun o => if o = -1 then 1 else -1)) := by
  have hpr := ensureMandatoryParams_preserves p
  have hvlen : nextVals.length = (ensureMandatoryParams p).paginatedFields.length :=
    parseCursor_ok_length hnext hpn
  have hgen := @GenerateCursorQuery_ok BVal _
    (ensureMandatoryParams p).paginatedFields
    ((ensureMandatoryParams p).sortOrders.map fun o => if o = -1 then "$gt" else "$lt")
    nextVals
    (by omega)
    (by simp only [List.length_map]; omega)
    (by
      have := generateComparisonOps_valid p.previous (ensureMandatoryParams p).sortOrders
      rw [generateComparisonOps_backward hprev] at this
      exact this)
  obtain ⟨cq, hcq⟩ := hgen
  refine ⟨cq, hcq, ?_⟩
  unfold BuildQueries
  dsimp only
  rw [numPaginatedFields_eq p, if_neg (by rw [hpr.1, hcol]; simp),
    if_neg (by rw [hpr.2.2.1]; omega), hpr.2.2.2.1, hpn]
  dsimp only
  rw [hpr.2.2.2.2.1, hpp]
  dsimp only
  rw [if_pos (Or.inl hnext), if_pos hnext, generateComparisonOps_backward hprev]
  dsimp only
  rw [hcq, hpr.2.1]
  rfl

/-- A store that answers any fetch with a single record `{_id: 9}`. -/
def wOneRecCollection : CollectionM := ⟨fun _ => .ok 7, fun _ _ _ => .ok [[(idName, BVal.i32 9)]]⟩

/-- A token for the 2-field sort `(n, _id)`: values `(v, w)`. -/
def tok2 (v w : Int) : Token := encodeCursor [([110], BVal.i32 v), (idName, BVal.i32 w)]

/-- **C10** (counterexample). Two calls identical up to the extra next
token, both fetching zero records (`hasMore` is false): the both-token
call reports `HasPrevious = true` (driven by the next token), while the
pure backward (previous-only) call reports `HasPrevious = false` — so
the has-flags of the both-token call are not all "computed as for a
backward traversal". -/
theorem C10_counterexample :
    ((Find ⟨some wEmptyCollection, 0, 1, true, [110], none, tok2 1 2, tok2 3 4, false, [], []⟩
        riRaw).1.map fun o => o.cursor.hasPrevious) = .ok true ∧
    ((Find ⟨some wEmptyCollection, 0, 1, true, [110], none, [], tok2 3 4, false, [], []⟩
        riRaw).1.map fun o => o.cursor.hasPrevious) = .ok false :=
  ⟨rfl, rfl⟩

/-- **C10** (amended, proved). A call with both tokens is not rejected:
the range predicate is built from the next token's decoded values; the
comparison operators, the effective sort directions, and the result
reversal are computed as for a backward (previous-token) traversal;
`hasNext` is true as in any previous-token call; but `hasPrevious` is
unconditionally true (the next token is non-empty), not the
backward-traversal value `hasMore`. -/
theorem C10_both_tokens (p : FindParams) (ri : Option ResultsInfo) (c : CollectionM)
    (nextVals prevVals : List BVal)
    (hval : validate ri (ensureMandatoryParams p).paginatedFields = none)
    (hcol : p.collection = some c) (hlim : 0 < p.limit)
    (hcnt : p.countTotal = false)
    (hnext : p.next ≠ []) (hprev : p.previous ≠ [])
    (hpn : parseCursor p.next (ensureMandatoryParams p).paginatedFields.length = .ok nextVals)
    (hpp : parseCursor p.previous (ensureMandatoryParams p).paginatedFields.length = .ok prevVals)
    (hlens : (ensureMandatoryParams p).sortOrders.length =
      (ensureMandatoryParams p).paginatedFields.length) :
    ∃ cq, GenerateCursorQuery (ensureMandatoryParams p).paginatedFields
        ((ensureMandatoryParams p).sortOrders.map fun o => if o = -1 then "$gt" else "$lt")
        nextVals = .ok cq ∧
      BuildQueries p = .ok ([MQuery.base p.query, MQuery.cursor cq],
        sortDoc (ensureMandatoryParams p).paginatedFields
          ((ensureMandatoryParams p).sortOrders.map fun o => if o = -1 then 1 else -1)) ∧
      (∀ fetched,
        c.findDocs [MQuery.base p.query, MQuery.cursor cq]
          (sortDoc (ensureMandatoryParams p).paginatedFields
            ((ensureMandatoryParams p).sortOrders.map fun o => if o = -1 then 1 else -1))
          (p.limit + 1) = .ok fetched →
        ∃ out tr, Find p ri = (.ok out, tr) ∧
          out.records = (if decide (p.limit < (fetched.length : Int)) then fetched.dropLast
            else fetched).reverse ∧
          out.cursor.hasPrevious = true ∧
          out.cursor.hasNext = true) := by
  have hpr := ensureMandatoryParams_preserves p
  obtain ⟨cq, hcq, hbq0⟩ := BuildQueries_both_tokens p c nextVals prevVals
    hcol hlim hnext hprev hpn hpp hlens
  have hbq : BuildQueries (ensureMandatoryParams p) = .ok ([MQuery.base p.query, MQuery.cursor cq],
      sortDoc (ensureMandatoryParams p).paginatedFields
        ((ensureMandatoryParams p).sortOrders.map fun o => if o = -1 then 1 else -1)) := by
    have h2 := BuildQueries_both_tokens (ensureMandatoryParams p) c nextVals prevVals
      (by rw [hpr.1]; exact hcol) (by rw [hpr.2.2.1]; exact hlim)
      (by rw [hpr.2.2.2.1]; exact hnext) (by rw [hpr.2.2.2.2.1]; exact hprev)
      (by rw [ensureMandatoryParams_idem, hpr.2.2.2.1]; exact hpn)
      (by rw [ensureMandatoryParams_idem, hpr.2.2.2.2.1]; exact hpp)
      (by rw [ensureMandatoryParams_idem]; exact hlens)
    obtain ⟨cq2, hcq2, hbq2⟩ := h2
    rw [ensureMandatoryParams_idem] at hcq2 hbq2
    rw [hcq] at hcq2
    cases hcq2
    rw [hbq2, hpr.2.1]
  refine ⟨cq, hcq, hbq0, fun fetched hfetch => ?_⟩
  have hcol2 : (ensureMandatoryParams p).collection = some c := by rw [hpr.1, hcol]
  have hfetch2 : c.findDocs [MQuery.base p.query, MQuery.cursor cq]
      (sortDoc (ensureMandatoryParams p).paginatedFields
        ((ensureMandatoryParams p).sortOrders.map fun o => if o = -1 then 1 else -1))
      ((ensureMandatoryParams p).limit + 1) = .ok fetched := by
    rw [hpr.2.2.1]
    exact hfetch
  rw [find_eq_noCount p ri hval hcnt,
    findAfterCount_ok _ 0 [] c _ _ fetched hbq hcol2 hfetch2]
  refine ⟨_, _, rfl, ?_, ?_, ?_⟩
  · simp only [postProcess, hpr.2.2.1, hpr.2.2.2.2.1]
    rw [if_neg (by simp [List.isEmpty_iff, hprev])]
  · simp only [postProcess, hpr.2.2.2.1]
    have : p.next.isEmpty = false := by simp [List.isEmpty_iff, hnext]
    rw [this]
    rfl
  · simp only [postProcess, hpr.2.2.2.2.1]
    have : p.previous.isEmpty = false := by simp [List.isEmpty_iff, hprev]
    rw [this]
    rfl

/-- The both-token witness parameters: paginated field `n` (0x6e),
next token `(1, 2)`, previous token `(3, 4)`, limit 1, one-record store. -/
def p10 : FindParams :=
  ⟨some wOneRecCollection, 0, 1, true, [110], none, tok2 1 2, tok2 3 4, false, [], []⟩

/-- Witness for the amended C10 at the concrete both-token call. -/
theorem C10_witness :
    ∃ cq, GenerateCursorQuery (ensureMandatoryParams p10).paginatedFields
        ((ensureMandatoryParams p10).sortOrders.map fun o => if o = -1 then "$gt" else "$lt")
        [BVal.i32 1, BVal.i32 2] = .ok cq ∧
      BuildQueries p10 = .ok ([MQuery.base p10.query, MQuery.cursor cq],
        sortDoc (ensureMandatoryParams p10).paginatedFields
          ((ensureMandatoryParams p10).sortOrders.map fun o => if o = -1 then 1 else -1)) ∧
      (∀ fetched,
        wOneRecCollection.findDocs [MQuery.base p10.query, MQuery.cursor cq]
          (sortDoc (ensureMandatoryParams p10).paginatedFields
            ((ensureMandatoryParams p10).sortOrders.map fun o => if o = -1 then 1 else -1))
          (p10.limit + 1) = .ok fetched →
        ∃ out tr, Find p10 riRaw = (.ok out, tr) ∧
          out.records = (if decide (p10.limit < (fetched.length : Int)) then fetched.dropLast
            else fetched).reverse ∧
          out.cursor.hasPrevious = true ∧
          out.cursor.hasNext = true) :=
  C10_both_tokens p10 riRaw wOneRecCollection [BVal.i32 1, BVal.i32 2] [BVal.i32 3, BVal.i32 4]
    rfl rfl (by decide) rfl (by decide) (by decide) rfl rfl rfl

end MCP
